import Mathlib

namespace IIDFile

/-!
# Verification of the `.iid` container (`iidfile.py`)

A shallow embedding of the `.iid` single-file container implemented in
`src/iidfile.py`, together with theorems settling the specification claims.

Byte buffers are modelled as `List Nat` (each element a byte value `< 256`,
maintained by construction: every byte written goes through `% 256`).
`struct.pack`/`struct.unpack` with little-endian `I` (u32) and `H` (u16)
formats become `packU32`/`unpackU32` and `packU16`/`unpackU16`.  Python code
that raises an exception is modelled with `Except String`.
-/

deriving instance DecidableEq for Except

/-- `struct.pack("<H", x)`: two little-endian bytes.  (Python raises on
`x ≥ 2^16`; theorems that rely on losslessness carry that bound as a
hypothesis.) -/
def packU16 (x : Nat) : List Nat := [x % 256, x / 256 % 256]

/-- `struct.pack("<I", x)`: four little-endian bytes. -/
def packU32 (x : Nat) : List Nat :=
  [x % 256, x / 256 % 256, x / 65536 % 256, x / 16777216 % 256]

/-- `struct.unpack("<H", b)` on (the first two bytes of) `b`. -/
def unpackU16 (b : List Nat) : Nat := b.getD 0 0 + 256 * b.getD 1 0

/-- `struct.unpack("<I", b)` on (the first four bytes of) `b`. -/
def unpackU32 (b : List Nat) : Nat :=
  b.getD 0 0 + 256 * (b.getD 1 0 + 256 * (b.getD 2 0 + 256 * b.getD 3 0))

/-- Python slice `buf[o : o + l]` (truncating at the end of the buffer,
exactly like Python slicing / `mmap` slicing). -/
def extract (buf : List Nat) (o l : Nat) : List Nat := (buf.drop o).take l

/-- Total byte length of a list of buffers. -/
def sumLen (bufs : List (List Nat)) : Nat := (bufs.map List.length).sum

/-- Offset of the `i`-th buffer inside the concatenation of `bufs`; this is
the value Python's serializers accumulate with `offset += len(buf)`. -/
def blockOffset (bufs : List (List Nat)) (i : Nat) : Nat := sumLen (bufs.take i)

/-!
## Bit packing (`np.packbits` / `np.unpackbits`)

`Region._dump` flattens the boolean mask row-major and packs it with
`np.packbits`: bits are taken most-significant-bit first, the final byte is
padded with zero bits.  `Region._load` unpacks with `np.unpackbits` and
truncates to the pixel count derived from the bbox.
-/

/-- Value contributed by one bit. -/
def bitVal (b : Bool) : Nat := cond b 1 0

/-- One byte from (at most 8) bits, MSB first, zero padded — the per-byte
semantics of `np.packbits`. -/
def byteOfBits (c : List Bool) : Nat :=
  128 * bitVal (c.getD 0 false) + 64 * bitVal (c.getD 1 false) +
  32 * bitVal (c.getD 2 false) + 16 * bitVal (c.getD 3 false) +
  8 * bitVal (c.getD 4 false) + 4 * bitVal (c.getD 5 false) +
  2 * bitVal (c.getD 6 false) + bitVal (c.getD 7 false)

/-- `np.packbits`: pack a flat bit list into bytes, MSB first, zero padded. -/
def packbits : List Bool → List Nat
  | [] => []
  | [b0] => [byteOfBits [b0]]
  | [b0, b1] => [byteOfBits [b0, b1]]
  | [b0, b1, b2] => [byteOfBits [b0, b1, b2]]
  | [b0, b1, b2, b3] => [byteOfBits [b0, b1, b2, b3]]
  | [b0, b1, b2, b3, b4] => [byteOfBits [b0, b1, b2, b3, b4]]
  | [b0, b1, b2, b3, b4, b5] => [byteOfBits [b0, b1, b2, b3, b4, b5]]
  | [b0, b1, b2, b3, b4, b5, b6] => [byteOfBits [b0, b1, b2, b3, b4, b5, b6]]
  | b0 :: b1 :: b2 :: b3 :: b4 :: b5 :: b6 :: b7 :: rest =>
      byteOfBits [b0, b1, b2, b3, b4, b5, b6, b7] :: packbits rest

/-- The 8 bits of one byte, MSB first — per-byte semantics of `np.unpackbits`. -/
def bitsOfByte (x : Nat) : List Bool :=
  [x / 128 % 2 == 1, x / 64 % 2 == 1, x / 32 % 2 == 1, x / 16 % 2 == 1,
   x / 8 % 2 == 1, x / 4 % 2 == 1, x / 2 % 2 == 1, x % 2 == 1]

/-- `np.unpackbits`. -/
def unpackbits (bs : List Nat) : List Bool := (bs.map bitsOfByte).flatten

/-!
## `Region` (`Region._dump` / `Region._load`, `Regions._dump` / `Regions._load`)
-/

/-- One region of a segment: a bbox `(minr, minc, maxr, maxc)` and a boolean
mask of shape `(maxr − minr, maxc − minc)`, kept flattened in row-major
order (the order `np.ndarray.flatten` produces before packing). -/
structure RegionRec where
  minr : Nat
  minc : Nat
  maxr : Nat
  maxc : Nat
  mask : List Bool
  deriving DecidableEq

/-- `Region._dump`: `pack("I", len(payload) + 4) + pack("4H", *bbox) +
pack("%sB", *np.packbits(mask))`. -/
def regionDump (r : RegionRec) : List Nat :=
  let x := packbits r.mask
  let payload := packU16 r.minr ++ (packU16 r.minc ++ (packU16 r.maxr ++
    (packU16 r.maxc ++ x)))
  packU32 (payload.length + 4) ++ payload

/-- `Region._load`: unpack the 12-byte header, unpack the mask bytes with
`np.unpackbits`, clip to `(maxr−minr)·(maxc−minc)` bits and reshape (the
reshape fails when fewer bits than that are present). -/
def regionLoad (buf : List Nat) : Except String RegionRec :=
  if buf.length < 12 then .error "struct.error: region header" else
  let a := unpackU16 (extract buf 4 2)
  let b := unpackU16 (extract buf 6 2)
  let c := unpackU16 (extract buf 8 2)
  let d := unpackU16 (extract buf 10 2)
  let bits := unpackbits (buf.drop 12)
  if (c - a) * (d - b) ≤ bits.length then
    .ok ⟨a, b, c, d, bits.take ((c - a) * (d - b))⟩
  else .error "ValueError: cannot reshape"

/-- `Regions._dump`: concatenation of the region records. -/
def regionsDump (rs : List RegionRec) : List Nat := (rs.map regionDump).flatten

/-- `Regions._load`: `while o < len(buf)` loop, reading a `total_length`
field and slicing one record at a time.  The loop is modelled with fuel;
running out of fuel models the source's non-termination on a zero
`total_length` field. -/
def regionsLoadAux (fuel : Nat) (buf : List Nat) :
    Except String (List RegionRec) :=
  if buf = [] then .ok []
  else
    match fuel with
    | 0 => .error "loop does not terminate"
    | f + 1 =>
      if buf.length < 4 then .error "struct.error: region length" else
      let length := unpackU32 (extract buf 0 4)
      (regionLoad (extract buf 0 length)).bind fun r =>
      (regionsLoadAux f (buf.drop length)).bind fun rs =>
      .ok (r :: rs)

/-- `Regions._load` entry point (ample fuel for any terminating run). -/
def regionsLoad (buf : List Nat) : Except String (List RegionRec) :=
  regionsLoadAux buf.length buf

/-- Constraints under which one region serializes losslessly: a well-formed
bbox with `u16` coordinates, a mask of exactly the bbox' pixel count, and a
record length below `2^32`. -/
def RegionFit (r : RegionRec) : Prop :=
  r.minr ≤ r.maxr ∧ r.minc ≤ r.maxc ∧ r.maxr < 65536 ∧ r.maxc < 65536 ∧
  r.mask.length = (r.maxr - r.minr) * (r.maxc - r.minc) ∧
  12 + (packbits r.mask).length < 4294967296

instance (r : RegionRec) : Decidable (RegionFit r) := by
  unfold RegionFit; infer_instance

/-!
## `Segment.dump` / `Segment.load`
-/

/-- A segment: bbox `(minr, minc, maxr, maxc)`, pixel `area`, region list. -/
structure SegRec where
  minr : Nat
  minc : Nat
  maxr : Nat
  maxc : Nat
  area : Nat
  regions : List RegionRec
  deriving DecidableEq, Inhabited

/-- `Segment.dump`: `pack("IHHHHI", key, *bbox, area)` followed by the
region records. -/
def segDump (key : Nat) (s : SegRec) : List Nat :=
  packU32 key ++ (packU16 s.minr ++ (packU16 s.minc ++ (packU16 s.maxr ++
    (packU16 s.maxc ++ (packU32 s.area ++ regionsDump s.regions)))))

/-- `Segment.load`: unpack the 16-byte header, then `Regions._load` on the
rest. -/
def segLoad (buf : List Nat) : Except String (Nat × SegRec) :=
  if buf.length < 16 then .error "struct.error: segment header" else
  let key := unpackU32 (extract buf 0 4)
  let a := unpackU16 (extract buf 4 2)
  let b := unpackU16 (extract buf 6 2)
  let c := unpackU16 (extract buf 8 2)
  let d := unpackU16 (extract buf 10 2)
  let area := unpackU32 (extract buf 12 4)
  (regionsLoad (buf.drop 16)).map fun rs => (key, ⟨a, b, c, d, area, rs⟩)

/-- Constraints under which a segment serializes losslessly. -/
def SegFit (s : SegRec) : Prop :=
  s.minr < 65536 ∧ s.minc < 65536 ∧ s.maxr < 65536 ∧ s.maxc < 65536 ∧
  s.area < 4294967296 ∧ ∀ r ∈ s.regions, RegionFit r

instance (s : SegRec) : Decidable (SegFit s) := by
  unfold SegFit; infer_instance

/-!
## `IID.dump` / `IID.load`
-/

/-- An IID as handed to `IIDFile.add`: identifier bytes and optional domain
bytes.  A missing identifier behaves exactly like `b""` in `IID.dump`
(`self.iid if self.iid else b""`), so `iid` is modelled as a plain byte
string. -/
structure IIDRec where
  iid : List Nat
  domain : Option (List Nat)
  deriving DecidableEq, Inhabited

/-- The byte string of an optional domain: `self.domain if self.domain
else b""`. -/
def domBytes (d : Option (List Nat)) : List Nat := d.getD []

/-- `IID.dump`: `pack("I", key) + pack("I", len(dom)) + pack("I", len(iid))
+ dom + iid`. -/
def iidDump (key : Nat) (r : IIDRec) : List Nat :=
  packU32 key ++ (packU32 (domBytes r.domain).length ++
    (packU32 r.iid.length ++ (domBytes r.domain ++ r.iid)))

/-- Result of `IID.load`: the stored key, the domain (`None` when its
length field is zero) and the identifier bytes. -/
structure IIDLoaded where
  key : Nat
  domain : Option (List Nat)
  iid : List Nat
  deriving DecidableEq

/-- `IID.load`. -/
def iidLoad (buf : List Nat) : Except String IIDLoaded :=
  if buf.length < 12 then .error "struct.error: iid header" else
  let key := unpackU32 (extract buf 0 4)
  let dl := unpackU32 (extract buf 4 4)
  let il := unpackU32 (extract buf 8 4)
  .ok ⟨key, if dl = 0 then none else some (extract buf 12 dl),
    extract buf (12 + dl) il⟩

/-- What a dumped domain reads back as: `None` when empty. -/
def normDomain (d : Option (List Nat)) : Option (List Nat) :=
  if domBytes d = [] then none else some (domBytes d)

/-!
## `LookupTableEntry.dump` / `LookupTableEntry.load`
-/

/-- One 20-byte lookup-table record: `key`, iid `(offset, length)`, segment
`(offset, length)` — offsets relative to the respective block start. -/
structure LutSlot where
  storedKey : Nat
  iidOff : Nat
  iidLen : Nat
  segOff : Nat
  segLen : Nat
  deriving DecidableEq

/-- `LookupTableEntry.dump`: `pack("I", iid.key) + iid.bufloc + seg.bufloc`. -/
def lutSlotDump (s : LutSlot) : List Nat :=
  packU32 s.storedKey ++ (packU32 s.iidOff ++ (packU32 s.iidLen ++
    (packU32 s.segOff ++ packU32 s.segLen)))

/-- `LookupTableEntry.load`: `unpack("IIIII", buf)` (requires exactly 20
bytes). -/
def lutSlotLoad (buf : List Nat) : Except String LutSlot :=
  if buf.length ≠ 20 then .error "struct.error: lut entry" else
  .ok ⟨unpackU32 (extract buf 0 4), unpackU32 (extract buf 4 4),
    unpackU32 (extract buf 8 4), unpackU32 (extract buf 12 4),
    unpackU32 (extract buf 16 4)⟩

/-!
## `Header.dump` / `Header.load`
-/

/-- The twelve u32 header fields: version, rformat, and five `(offset,
length)` pairs. -/
structure HeaderRec where
  version : Nat
  rformat : Nat
  blLut : Nat × Nat
  blIids : Nat × Nat
  blMeta : Nat × Nat
  blGroups : Nat × Nat
  blSegs : Nat × Nat
  deriving DecidableEq

/-- `BufferLocation.dump`. -/
def buflocDump (bl : Nat × Nat) : List Nat := packU32 bl.1 ++ packU32 bl.2

/-- `Header.dump`.  Note the source quirk: the `rformat` field is written as
`self.rformat if self.version else 0`, i.e. it is zeroed whenever
`version == 0`. -/
def headerDump (h : HeaderRec) : List Nat :=
  packU32 h.version ++ (packU32 (if h.version = 0 then 0 else h.rformat) ++
    (buflocDump h.blLut ++ (buflocDump h.blIids ++ (buflocDump h.blMeta ++
      (buflocDump h.blGroups ++ buflocDump h.blSegs)))))

/-- `Header.load` (the caller guarantees at least 48 bytes). -/
def headerLoad (file : List Nat) : HeaderRec :=
  { version := unpackU32 (extract file 0 4)
    rformat := unpackU32 (extract file 4 4)
    blLut := (unpackU32 (extract file 8 4), unpackU32 (extract file 12 4))
    blIids := (unpackU32 (extract file 16 4), unpackU32 (extract file 20 4))
    blMeta := (unpackU32 (extract file 24 4), unpackU32 (extract file 28 4))
    blGroups := (unpackU32 (extract file 32 4), unpackU32 (extract file 36 4))
    blSegs := (unpackU32 (extract file 40 4), unpackU32 (extract file 44 4)) }

/-!
## `IIDFile.dump` / `IIDFile.save` and reopening (`IIDFile.__init__`)
-/

/-- Modelled from the spec: the JSON codec is the external `json` library;
§4.6 requires a `MetadataParse` failure when the metadata bytes are not
valid JSON.  `json.loads` rejects the empty document, which is the only
ill-formed document the claims exercise; the well-formed documents that
occur here are those produced by `json.dumps` below. -/
def jsonLoadsOk (buf : List Nat) : Bool := !buf.isEmpty

/-- `json.dumps({})` as bytes: the two characters `\x7b\x7d`. -/
def metaBytesEmpty : List Nat := [123, 125]

/-- The serialized groups block of a file with no groups:
`pack("I", len("[]")) + b"[]"` and no payloads. -/
def groupsBytesEmpty : List Nat := [2, 0, 0, 0, 91, 93]

/-- `Groups._load`.  Modelled from the spec: decoding the JSON directory is
done by the external `json` library; the only directory the claims exercise
is the empty one (`"[]"`), produced for a file without groups.  A directory
that cannot be sliced (`unpack` on fewer than 4 bytes) fails like the
source does. -/
def groupsLoadBytes (buf : List Nat) : Except String Unit :=
  if buf.length < 4 then .error "struct.error: groups directory" else
  let dlen := unpackU32 (extract buf 0 4)
  if extract buf 4 dlen = [91, 93] then .ok ()
  else .error "unmodelled groups directory"

/-- One in-memory lookup-table entry of a freshly opened file: the index
key, the loaded identifier record (IIDs are loaded eagerly on open) and the
segment's block-relative buffer location (segments stay lazy). -/
structure LoadedEntry where
  key : Nat
  iidKey : Nat
  domain : Option (List Nat)
  iid : List Nat
  segOff : Nat
  segLen : Nat
  deriving DecidableEq

/-- The state of an `IIDFile` right after `IIDFile.__init__` on an existing
file: header fields, metadata bytes and the lookup table with eagerly
loaded identifiers. -/
structure LoadedFile where
  version : Nat
  rformat : Nat
  blLut : Nat × Nat
  blIids : Nat × Nat
  blMeta : Nat × Nat
  blGroups : Nat × Nat
  blSegs : Nat × Nat
  metaBytes : List Nat
  entries : List LoadedEntry
  deriving DecidableEq

/-- `IIDFile.__init__` with an `fpath`: load header, metadata, groups, the
full lookup table, and eagerly all identifier records.  Segments remain
unfetched. -/
def openIIDFile (file : List Nat) : Except String LoadedFile :=
  if file.length < 48 then .error "struct.error: header" else
  if !jsonLoadsOk (extract file (headerLoad file).blMeta.1
      (headerLoad file).blMeta.2) then
    .error "json.decoder.JSONDecodeError" else
  (groupsLoadBytes (extract file (headerLoad file).blGroups.1
    (headerLoad file).blGroups.2)).bind fun _ =>
  ((List.range ((headerLoad file).blLut.2 / 20)).mapM fun k =>
    lutSlotLoad (extract file ((headerLoad file).blLut.1 + 20 * k) 20)).bind
    fun slots =>
  (slots.enum.mapM fun p =>
    (iidLoad (extract file ((headerLoad file).blIids.1 + p.2.iidOff)
      p.2.iidLen)).map fun ir =>
      LoadedEntry.mk p.1 ir.key ir.domain ir.iid p.2.segOff p.2.segLen).bind
    fun entries =>
  .ok ⟨(headerLoad file).version, (headerLoad file).rformat,
    (headerLoad file).blLut, (headerLoad file).blIids,
    (headerLoad file).blMeta, (headerLoad file).blGroups,
    (headerLoad file).blSegs,
    extract file (headerLoad file).blMeta.1 (headerLoad file).blMeta.2,
    entries⟩

/-- `Segments.fetch` + `Segment.load` for one entry of a loaded file. -/
def fetchSegAt (file : List Nat) (lf : LoadedFile) (e : LoadedEntry) :
    Except String (Nat × SegRec) :=
  segLoad (extract file (lf.blSegs.1 + e.segOff) e.segLen)

/-- Fetch every entry's segment (`fetch(all_keys=True, segs=True)`). -/
def fetchAllSegs (file : List Nat) (lf : LoadedFile) :
    Except String (List (Nat × SegRec)) :=
  lf.entries.mapM (fetchSegAt file lf)

/-- The arguments of one `IIDFile.add(iid, seg)` call. -/
structure AddEntry where
  iid : IIDRec
  seg : SegRec
  deriving DecidableEq, Inhabited

/-- The per-entry identifier buffers built by `IIDs.dump` (key order; `add`
assigned `iid.key = index`). -/
def iidBufs (es : List AddEntry) : List (List Nat) :=
  es.enum.map fun p => iidDump p.1 p.2.iid

/-- The per-entry segment buffers built by `Segments.dump`. -/
def segBufs (es : List AddEntry) : List (List Nat) :=
  es.enum.map fun p => segDump p.1 p.2.seg

/-- The lookup-table slot of entry `i` in a fresh save: key `i` plus the
block-relative buffer locations that `IIDs.dump` and `Segments.dump`
accumulated with `offset += len(buf)`. -/
def slotAt (es : List AddEntry) (i : Nat) : LutSlot :=
  ⟨i, blockOffset (iidBufs es) i, ((iidBufs es).getD i []).length,
    blockOffset (segBufs es) i, ((segBufs es).getD i []).length⟩

/-- The lookup-table slots of a fresh save. -/
def lutSlotsFresh (es : List AddEntry) : List LutSlot :=
  (List.range es.length).map (slotAt es)

/-- `LookupTable.dump` for a fresh file: `b"".join(entry.dump() ...)`. -/
def lutBufFresh (es : List AddEntry) : List Nat :=
  ((lutSlotsFresh es).map lutSlotDump).flatten

/-- The header a fresh save writes: offsets assigned `LUT → IIDs →
Metadata → Groups → Segments` starting at the 48-byte header. -/
def fileHeaderRec (es : List AddEntry) : HeaderRec :=
  { version := 0, rformat := 0,
    blLut := (48, (lutBufFresh es).length),
    blIids := (48 + (lutBufFresh es).length, (iidBufs es).flatten.length),
    blMeta := (48 + (lutBufFresh es).length + (iidBufs es).flatten.length, 2),
    blGroups := (48 + (lutBufFresh es).length + (iidBufs es).flatten.length
      + 2, 6),
    blSegs := (48 + (lutBufFresh es).length + (iidBufs es).flatten.length
      + 8, (segBufs es).flatten.length) }

/-- The payload blocks of a fresh save, in on-disk order. -/
def fileRest (es : List AddEntry) : List Nat :=
  lutBufFresh es ++ ((iidBufs es).flatten ++ (metaBytesEmpty ++
    (groupsBytesEmpty ++ (segBufs es).flatten)))

/-- `IIDFile.dump` for a fresh file (no groups, empty metadata) after the
given sequence of `add` calls:
`header || LUT || IIDs || Metadata || Groups || Segments`. -/
def fileDump (es : List AddEntry) : List Nat :=
  headerDump (fileHeaderRec es) ++ fileRest es

/-- The header as a flat list of twelve u32 fields. -/
def headerFields (h : HeaderRec) : List Nat :=
  [h.version, if h.version = 0 then 0 else h.rformat,
   h.blLut.1, h.blLut.2, h.blIids.1, h.blIids.2, h.blMeta.1, h.blMeta.2,
   h.blGroups.1, h.blGroups.2, h.blSegs.1, h.blSegs.2]

/-- What the lookup table of the reopened file holds for entry `i` of the
original `add` sequence (identifiers eagerly loaded, segments lazy). -/
def expectedEntries (es : List AddEntry) : List LoadedEntry :=
  es.enum.map fun p =>
    ⟨p.1, p.1, normDomain p.2.iid.domain, p.2.iid.iid,
      blockOffset (segBufs es) p.1, ((segBufs es).getD p.1 []).length⟩

/-- The `IIDFile` state expected after reopening a fresh save. -/
def expectedLoaded (es : List AddEntry) : LoadedFile :=
  { version := 0, rformat := 0,
    blLut := (fileHeaderRec es).blLut,
    blIids := (fileHeaderRec es).blIids,
    blMeta := (fileHeaderRec es).blMeta,
    blGroups := (fileHeaderRec es).blGroups,
    blSegs := (fileHeaderRec es).blSegs,
    metaBytes := metaBytesEmpty,
    entries := expectedEntries es }

/-- Conditions under which every value a fresh save writes fits its
fixed-width field (`struct.pack` raises `struct.error` otherwise). -/
def FitAll (es : List AddEntry) : Prop :=
  es.length < 4294967296 ∧
  48 + 20 * es.length + (iidBufs es).flatten.length + 8
    + (segBufs es).flatten.length < 4294967296 ∧
  ∀ e ∈ es, SegFit e.seg ∧ (domBytes e.iid.domain).length < 4294967296 ∧
    e.iid.iid.length < 4294967296

instance (es : List AddEntry) : Decidable (FitAll es) := by
  unfold FitAll; infer_instance

/-!
## `Segment.buffer` / `Segment.from_buffer` (numpy-array level)

These two methods manipulate 2-D boolean numpy arrays.  A mask is modelled
as a total function `Nat → Nat → Bool` read at `(row, column)`; the shape
travels separately, exactly like the bbox does in the source.
-/

/-- A 2-D boolean array read at `(row, col)`. -/
def Grid : Type := Nat → Nat → Bool

/-- A region at the numpy level: bbox and cropped mask (local coords). -/
structure RegionG where
  minr : Nat
  minc : Nat
  maxr : Nat
  maxc : Nat
  mask : Grid

/-- A segment at the numpy level. -/
structure SegG where
  minr : Nat
  minc : Nat
  maxr : Nat
  maxc : Nat
  area : Nat
  regions : List RegionG

/-- Numpy slice assignment `buf[minr:maxr, minc:maxc] = m`: inside the
window the new value replaces the old one, outside it is untouched.  This
is the stamping `Segment.buffer` performs. -/
def stampAssign (buf : Grid) (minr minc maxr maxc : Nat) (m : Grid) : Grid :=
  fun r c =>
    if minr ≤ r ∧ r < maxr ∧ minc ≤ c ∧ c < maxc
    then m (r - minr) (c - minc) else buf r c

/-- `Segment.buffer`: allocate a zero buffer of the segment's shape and, for
each region in order, translate its bbox by subtracting the segment origin
and slice-assign the region mask into that window. -/
def segBuffer (s : SegG) : Grid :=
  s.regions.foldl
    (fun buf reg =>
      stampAssign buf (reg.minr - s.minr) (reg.minc - s.minc)
        (reg.maxr - s.minr) (reg.maxc - s.minc) reg.mask)
    (fun _ _ => false)

/-- The stamp as §4.4 of the specification words it: "stamp the region mask
into that window by bitwise-OR".  This definition follows the
specification's words and is compared against `segBuffer`, which follows
the source. -/
def stampOr (buf : Grid) (minr minc maxr maxc : Nat) (m : Grid) : Grid :=
  fun r c =>
    buf r c ||
      (if minr ≤ r ∧ r < maxr ∧ minc ≤ c ∧ c < maxc
       then m (r - minr) (c - minc) else false)

/-- `Segment.buffer` as the specification describes it: OR-stamping instead
of slice assignment. -/
def segBufferOrSpec (s : SegG) : Grid :=
  s.regions.foldl
    (fun buf reg =>
      stampOr buf (reg.minr - s.minr) (reg.minc - s.minc)
        (reg.maxr - s.minr) (reg.maxc - s.minc) reg.mask)
    (fun _ _ => false)

/-- `Segment.from_buffer`: record the given bbox, set `area := w * h` (the
full bbox rectangle), and lift every labeled component into global image
coordinates by adding the segment origin.  Modelled from the spec: the
connected-component labeling itself (`label` / `regionprops`, 8-connected)
is the external image-analysis collaborator, so its output is taken as the
`labeled` argument; the labeler contract of §4.4/§6 appears as hypotheses
of the theorems. -/
def from_buffer (minr minc maxr maxc : Nat) (labeled : List RegionG) : SegG :=
  { minr := minr, minc := minc, maxr := maxr, maxc := maxc,
    area := (maxc - minc) * (maxr - minr),
    regions := labeled.map fun reg =>
      ⟨reg.minr + minr, reg.minc + minc, reg.maxr + minr, reg.maxc + minc,
        reg.mask⟩ }

/-- `(r, c)` lies inside a region's bbox. -/
def coversR (reg : RegionG) (r c : Nat) : Prop :=
  reg.minr ≤ r ∧ r < reg.maxr ∧ reg.minc ≤ c ∧ c < reg.maxc

instance (reg : RegionG) (r c : Nat) : Decidable (coversR reg r c) := by
  unfold coversR; infer_instance

/-- Two bboxes occupy disjoint rectangles (the labeler contract of §4.4). -/
def bboxDisjoint (a b : RegionG) : Prop :=
  a.maxr ≤ b.minr ∨ b.maxr ≤ a.minr ∨ a.maxc ≤ b.minc ∨ b.maxc ≤ a.minc

instance (a b : RegionG) : Decidable (bboxDisjoint a b) := by
  unfold bboxDisjoint; infer_instance

/-- Number of true pixels in the `h × w` window of a grid. -/
def countTrue (g : Grid) (h w : Nat) : Nat :=
  ((List.range h).map fun r => ((List.range w).filter fun c => g r c).length).sum

/-!
## In-memory query engine (`IIDFile.fetch` / `IIDFile.find` /
`IIDFile.filter`, `LookupTable.dump` with tombstones)
-/

/-- An in-memory lookup-table entry as the query methods see it: its key,
the (eagerly loaded) identifier and domain bytes, and its segment's pixel
`area` — the only segment field `filter` consults. -/
structure FEntry where
  key : Nat
  iid : List Nat
  domain : Option (List Nat)
  area : Nat
  deriving DecidableEq, Inhabited

/-- An `IIDFile` as the query methods see it: the lookup-table slot list
(`None` = tombstone) and the named groups with their key sets. -/
structure FileMem where
  entries : List (Option FEntry)
  groups : List (String × List Nat)
  deriving DecidableEq, Inhabited

/-- `LookupTable.dump` on the in-memory entry list:
`b"".join(entry.dump() for entry in self.entries)`.  A `None` tombstone
slot raises `AttributeError` (`None` has no `dump`). -/
def lutDumpMem (entries : List (Option LutSlot)) : Except String (List Nat) :=
  ((entries.mapM fun o =>
    match o with
    | some e => Except.ok (lutSlotDump e)
    | none => Except.error "AttributeError: NoneType has no attribute dump") :
      Except String (List (List Nat))).map List.flatten

/-- `IIDFile.fetch(keys=...)` with `iids=segs=False`: `keys = set(keys)`
then `[self.lut.entries[key] for key in keys]`.  An out-of-range key raises
`IndexError`; a tombstone slot is returned as `None`.  (Python set
iteration order is unspecified; `dedup` keeps first occurrences.) -/
def fetchPlain (f : FileMem) (keys : List Nat) :
    Except String (List (Option FEntry)) :=
  keys.dedup.mapM fun k =>
    if h : k < f.entries.length then Except.ok (f.entries.get ⟨k, h⟩)
    else Except.error "IndexError: list index out of range"

/-- `Groups.get(..., keys_only=True)`: union the named groups' key sets; a
missing name raises `KeyError`. -/
def groupKeys (f : FileMem) (gs : List String) : Except String (List Nat) :=
  ((gs.mapM fun n =>
    match f.groups.lookup n with
    | some ks => Except.ok ks
    | none => Except.error "KeyError: unknown group") :
      Except String (List (List Nat))).map fun ls => ls.flatten.dedup

/-- The key list of `fetch(all_keys=True)`:
`[entry.key for entry in self.lut.entries]` (raises `AttributeError` on a
tombstone), then `set(keys)`. -/
def allKeys (f : FileMem) : Except String (List Nat) :=
  ((f.entries.mapM fun o =>
    match o with
    | some e => Except.ok e.key
    | none => Except.error "AttributeError: NoneType has no attribute key") :
      Except String (List Nat)).map List.dedup

/-- `entry.iid.*` attribute access on a fetched slot: a tombstone (`None`)
raises `AttributeError`. -/
def entryOrRaise (o : Option FEntry) : Except String FEntry :=
  match o with
  | some e => Except.ok e
  | none => Except.error "AttributeError: NoneType has no attribute iid"

/-- `entry.iid.domain in domains` (a `None` domain is never in a byte-string
list). -/
def domMatch (dom : Option (List Nat)) (ds : List (List Nat)) : Bool :=
  match dom with
  | some d => decide (d ∈ ds)
  | none => false

/-- `IIDFile.find(iids, groups, domains)`: resolve the candidate entries
through the groups (or all keys), post-filter on domains, then keep the
entries whose stored iid bytes are among `iids`.  (Segment materialization
only copies bytes and is omitted.) -/
def findMem (f : FileMem) (iids : List (List Nat))
    (groups : Option (List String)) (domains : Option (List (List Nat))) :
    Except String (List FEntry) :=
  (match groups with
   | some gs => (groupKeys f gs).bind fun ks => fetchPlain f ks
   | none => (allKeys f).bind fun ks => fetchPlain f ks).bind fun opts =>
  (opts.mapM entryOrRaise).bind fun ents =>
  Except.ok (((match domains with
    | some ds => ents.filter fun e => domMatch e.domain ds
    | none => ents : List FEntry)).filter fun e => decide (e.iid ∈ iids))

/-- The area test of `IIDFile.filter`:
`min_area = 0 if area[0] is None else area[0]`,
`max_area = inf if area[1] is None else area[1]`, then strictly
`min_area < entry.seg.area < max_area`. -/
def areaPass (a : Nat) (bounds : Option Nat × Option Nat) : Bool :=
  decide (bounds.1.getD 0 < a) &&
    (match bounds.2 with
     | none => true
     | some m => decide (a < m))

/-- `IIDFile.filter(groups, area, domains)`: fetch the candidate entries,
post-filter on domains, then on the exclusive area range (when given). -/
def filterMem (f : FileMem) (groups : Option (List String))
    (area : Option (Option Nat × Option Nat))
    (domains : Option (List (List Nat))) : Except String (List FEntry) :=
  (match groups with
   | some gs => (groupKeys f gs).bind fun ks => fetchPlain f ks
   | none => (allKeys f).bind fun ks => fetchPlain f ks).bind fun opts =>
  (opts.mapM entryOrRaise).bind fun ents =>
  Except.ok ((match area with
    | some b => ((match domains with
        | some ds => ents.filter fun e => domMatch e.domain ds
        | none => ents : List FEntry)).filter fun e => areaPass e.area b
    | none => match domains with
        | some ds => ents.filter fun e => domMatch e.domain ds
        | none => ents : List FEntry))

/-- Membership of a key in the union of the named groups' key sets. -/
def keyInGroups (f : FileMem) (gs : List String) (k : Nat) : Prop :=
  ∃ n ∈ gs, ∃ ks, f.groups.lookup n = some ks ∧ k ∈ ks

instance (f : FileMem) (gs : List String) (k : Nat) :
    Decidable (keyInGroups f gs k) := by
  unfold keyInGroups; infer_instance

/-!
## Empty files and the version field (`Header` / `Metadata` round trips)
-/

/-- A 56-byte file holding only a header (with the given version and
rformat fields), the metadata document `{}` and an empty groups directory —
the smallest layout the reader accepts. -/
def minimalFile (version rformat : Nat) : List Nat :=
  headerDump ⟨version, rformat, (48, 0), (48, 0), (48, 2), (50, 6), (56, 0)⟩ ++
    (metaBytesEmpty ++ groupsBytesEmpty)

/-- `IIDFile.dump` on a freshly opened (never fetched) file.  With any entry
present, `entry.seg.dump()` hits `self.regions._dump()` with
`regions = None` and raises `AttributeError`; with no entries the LUT,
IIDs and Segments buffers are empty and the offsets are fixed.  The
metadata re-serialization `json.dumps(json.loads(bytes))` is modelled from
the spec for the canonical document `"\x7b\x7d"` only (the JSON codec is
external). -/
def dumpReopened (lf : LoadedFile) : Except String (List Nat) :=
  match lf.entries with
  | _ :: _ => Except.error "AttributeError: NoneType has no attribute _dump"
  | [] =>
    if lf.metaBytes = metaBytesEmpty then
      Except.ok (headerDump ⟨lf.version, lf.rformat, (48, 0), (48, 0),
        (48, 2), (50, 6), (56, 0)⟩ ++ (metaBytesEmpty ++ groupsBytesEmpty))
    else Except.error "unmodelled JSON document"

/-- One step of `Segment.buffer`'s loop, in untranslated coordinates. -/
def stampStep (buf : Grid) (reg : RegionG) : Grid :=
  stampAssign buf reg.minr reg.minc reg.maxr reg.maxc reg.mask

/-- The region of §8 scenario 6: bbox `(0,0,1,13)`, alternating 13-bit mask. -/
def region13 : RegionRec :=
  ⟨0, 0, 1, 13, [true, false, true, false, true, false, true, false, true,
    false, true, false, true]⟩

/-- A lookup table holding a single tombstone (`entries = [None]`). -/
def c6File : FileMem := ⟨[none], []⟩

/-- A file with one entry of segment area `0`. -/
def c8ZeroFile : FileMem := ⟨[some ⟨0, [120], none, 0⟩], []⟩

/-- Three entries with segment areas `10`, `50`, `500` (§8 scenario 5). -/
def c8AreasFile : FileMem :=
  ⟨[some ⟨0, [97], none, 10⟩, some ⟨1, [98], none, 50⟩,
    some ⟨2, [99], none, 500⟩], []⟩

/-- Three identified entries and a group `"A"` on keys `{0, 2}`. -/
def c7File : FileMem :=
  ⟨[some ⟨0, [120], some [100], 5⟩, some ⟨1, [121], none, 6⟩,
    some ⟨2, [122], some [100], 7⟩], [("A", [0, 2])]⟩

/-- A segment with two regions whose bboxes overlap: the second region's
window covers the first region's pixel, and its mask is false there. -/
def c2OverlapSeg : SegG :=
  ⟨0, 0, 1, 2, 2,
   [⟨0, 0, 1, 1, fun _ _ => true⟩, ⟨0, 0, 1, 2, fun _ c => c == 1⟩]⟩

/-- Labeler output for a 2×2 mask true at `(0,0)` and `(1,1)`: two
one-pixel components. -/
def c2Labeled : List RegionG :=
  [⟨0, 0, 1, 1, fun _ _ => true⟩, ⟨1, 1, 2, 2, fun _ _ => true⟩]

/-- The 2×2 mask true exactly on the diagonal. -/
def c2M : Grid := fun r c => r == c

/-- Two `add` calls: entry 0 with a domain and a one-region segment, entry 1
with no domain and a region-less segment. -/
def c1Example : List AddEntry :=
  [⟨⟨[0, 1], some [100]⟩, ⟨0, 0, 2, 2, 3, [⟨0, 0, 2, 2,
      [true, true, true, false]⟩]⟩⟩,
   ⟨⟨[120], none⟩, ⟨1, 1, 4, 4, 9, []⟩⟩]

/-!
## Theorems
-/

theorem unpackU16_packU16 (x : Nat) (h : x < 65536) :
    unpackU16 (packU16 x) = x := by
  simp only [unpackU16, packU16, List.getD_cons_zero, List.getD_cons_succ]
  omega

theorem unpackU32_packU32 (x : Nat) (h : x < 4294967296) :
    unpackU32 (packU32 x) = x := by
  simp only [unpackU32, packU32, List.getD_cons_zero, List.getD_cons_succ]
  omega

@[simp] theorem packU16_length (x : Nat) : (packU16 x).length = 2 := rfl

@[simp] theorem packU32_length (x : Nat) : (packU32 x).length = 4 := rfl

theorem extract_append_left (a b : List Nat) (o l : Nat) (h : o + l ≤ a.length) :
    extract (a ++ b) o l = extract a o l := by
  simp only [extract, List.drop_append_eq_append_drop]
  rw [List.take_append_eq_append_take]
  have h1 : l - (a.drop o).length = 0 := by
    simp only [List.length_drop]; omega
  have h2 : o - a.length = 0 := by omega
  have h3 : l - (a.length - o) = 0 := by omega
  simp [h1, h2, h3]

theorem extract_append_right (a b : List Nat) (o l : Nat) :
    extract (a ++ b) (a.length + o) l = extract b o l := by
  simp only [extract]
  rw [List.drop_append_eq_append_drop]
  have h1 : a.length + o - a.length = o := by omega
  have h2 : a.drop (a.length + o) = [] := by
    apply List.drop_eq_nil_of_le; omega
  simp [h1, h2]

theorem extract_front (a b : List Nat) (l : Nat) (h : l = a.length) :
    extract (a ++ b) 0 l = a := by
  subst h
  simp [extract]

@[simp] theorem sumLen_nil : sumLen [] = 0 := rfl

@[simp] theorem sumLen_cons (b : List Nat) (bs : List (List Nat)) :
    sumLen (b :: bs) = b.length + sumLen bs := rfl

theorem sumLen_eq_length_flatten (bufs : List (List Nat)) :
    sumLen bufs = bufs.flatten.length := by
  simp [sumLen, List.length_flatten]

theorem length_le_sumLen {bufs : List (List Nat)} {b : List Nat} (h : b ∈ bufs) :
    b.length ≤ sumLen bufs := by
  induction bufs with
  | nil => cases h
  | cons x xs ih =>
    rcases List.mem_cons.mp h with rfl | h
    · simp only [sumLen_cons]; omega
    · have := ih h; simp only [sumLen_cons]; omega

theorem blockOffset_le_sumLen (bufs : List (List Nat)) (i : Nat) :
    blockOffset bufs i ≤ sumLen bufs := by
  induction bufs generalizing i with
  | nil => simp [blockOffset, sumLen]
  | cons b bs ih =>
    cases i with
    | zero => simp [blockOffset]
    | succ j =>
      have := ih j
      simp only [blockOffset, List.take_succ_cons, sumLen_cons] at *
      omega

/-- Slicing the concatenation of `bufs` at the `i`-th accumulated offset with
the `i`-th length recovers the `i`-th buffer. -/
theorem extract_flatten (bufs : List (List Nat)) (i : Nat) (h : i < bufs.length) :
    extract bufs.flatten (blockOffset bufs i) (bufs.getD i []).length
      = bufs.getD i [] := by
  induction bufs generalizing i with
  | nil => simp at h
  | cons b bs ih =>
    cases i with
    | zero =>
      simp only [blockOffset, List.take_zero, sumLen_nil, List.flatten_cons,
        List.getD_cons_zero]
      exact extract_front _ _ _ rfl
    | succ j =>
      have hj : j < bs.length := by simpa using h
      have : blockOffset (b :: bs) (j + 1) = b.length + blockOffset bs j := by
        simp [blockOffset, List.take_succ_cons]
      rw [this]
      simp only [List.flatten_cons, List.getD_cons_succ]
      rw [extract_append_right]
      exact ih j hj

/-- `List.mapM` over `Except` succeeds pointwise. -/
theorem mapM_ok {α β : Type} (f : α → Except String β) (g : α → β) (l : List α)
    (h : ∀ x ∈ l, f x = .ok (g x)) : l.mapM f = .ok (l.map g) := by
  induction l with
  | nil => rfl
  | cons x xs ih =>
    have hx : f x = .ok (g x) := h x (by simp)
    have hxs : xs.mapM f = .ok (xs.map g) := ih (fun y hy => h y (by simp [hy]))
    simp only [List.mapM_cons, hx, hxs, List.map_cons]
    rfl

@[simp] theorem unpackbits_nil : unpackbits [] = [] := rfl

@[simp] theorem unpackbits_cons (x : Nat) (xs : List Nat) :
    unpackbits (x :: xs) = bitsOfByte x ++ unpackbits xs := by
  simp [unpackbits]

theorem bitsOfByte_byteOfBits (c : List Bool) (h : c.length ≤ 8) :
    bitsOfByte (byteOfBits c) = c ++ List.replicate (8 - c.length) false := by
  rcases c with _ | ⟨a, c⟩; · decide
  rcases c with _ | ⟨b, c⟩; · revert a; decide
  rcases c with _ | ⟨d, c⟩; · revert a b; decide
  rcases c with _ | ⟨e, c⟩; · revert a b d; decide
  rcases c with _ | ⟨f, c⟩; · revert a b d e; decide
  rcases c with _ | ⟨g, c⟩; · revert a b d e f; decide
  rcases c with _ | ⟨i, c⟩; · revert a b d e f g; decide
  rcases c with _ | ⟨j, c⟩; · revert a b d e f g i; decide
  rcases c with _ | ⟨k, c⟩
  · revert a b d e f g i j; decide
  · simp at h

/-- Unpacking packed bits returns the original bit list followed by the
zero padding of the final byte. -/
theorem unpackbits_packbits (bits : List Bool) :
    unpackbits (packbits bits)
      = bits ++ List.replicate ((8 - bits.length % 8) % 8) false := by
  induction bits using packbits.induct with
  | case1 => simp [packbits]
  | case2 b0 =>
    rw [packbits, unpackbits_cons, unpackbits_nil,
      bitsOfByte_byteOfBits _ (by simp)]
    simp
  | case3 b0 b1 =>
    rw [packbits, unpackbits_cons, unpackbits_nil,
      bitsOfByte_byteOfBits _ (by simp)]
    simp
  | case4 b0 b1 b2 =>
    rw [packbits, unpackbits_cons, unpackbits_nil,
      bitsOfByte_byteOfBits _ (by simp)]
    simp
  | case5 b0 b1 b2 b3 =>
    rw [packbits, unpackbits_cons, unpackbits_nil,
      bitsOfByte_byteOfBits _ (by simp)]
    simp
  | case6 b0 b1 b2 b3 b4 =>
    rw [packbits, unpackbits_cons, unpackbits_nil,
      bitsOfByte_byteOfBits _ (by simp)]
    simp
  | case7 b0 b1 b2 b3 b4 b5 =>
    rw [packbits, unpackbits_cons, unpackbits_nil,
      bitsOfByte_byteOfBits _ (by simp)]
    simp
  | case8 b0 b1 b2 b3 b4 b5 b6 =>
    rw [packbits, unpackbits_cons, unpackbits_nil,
      bitsOfByte_byteOfBits _ (by simp)]
    simp
  | case9 b0 b1 b2 b3 b4 b5 b6 b7 rest ih =>
    rw [packbits, unpackbits_cons, ih, bitsOfByte_byteOfBits _ (by simp)]
    have hm : (8 - (b0 :: b1 :: b2 :: b3 :: b4 :: b5 :: b6 :: b7
        :: rest).length % 8) % 8 = (8 - rest.length % 8) % 8 := by
      simp only [List.length_cons]
      omega
    rw [hm]
    simp

theorem take_unpackbits_packbits (bits : List Bool) :
    (unpackbits (packbits bits)).take bits.length = bits := by
  rw [unpackbits_packbits]
  exact List.take_left _ _

theorem length_unpackbits_packbits (bits : List Bool) :
    bits.length ≤ (unpackbits (packbits bits)).length := by
  rw [unpackbits_packbits]
  simp

theorem extract_packU32_shift (x : Nat) (rest : List Nat) (o l : Nat) (h : 4 ≤ o) :
    extract (packU32 x ++ rest) o l = extract rest (o - 4) l := by
  obtain ⟨k, rfl⟩ : ∃ k, o = 4 + k := ⟨o - 4, by omega⟩
  rw [show (4 : Nat) + k = (packU32 x).length + k by simp]
  rw [extract_append_right]
  congr 1
  simp

theorem extract_packU16_shift (x : Nat) (rest : List Nat) (o l : Nat) (h : 2 ≤ o) :
    extract (packU16 x ++ rest) o l = extract rest (o - 2) l := by
  obtain ⟨k, rfl⟩ : ∃ k, o = 2 + k := ⟨o - 2, by omega⟩
  rw [show (2 : Nat) + k = (packU16 x).length + k by simp]
  rw [extract_append_right]
  congr 1
  simp

theorem extract_packU32_self (x : Nat) (rest : List Nat) :
    extract (packU32 x ++ rest) 0 4 = packU32 x :=
  extract_front _ _ _ rfl

theorem extract_packU16_self (x : Nat) (rest : List Nat) :
    extract (packU16 x ++ rest) 0 2 = packU16 x :=
  extract_front _ _ _ rfl

theorem extract_packU32_all (x : Nat) : extract (packU32 x) 0 4 = packU32 x := rfl

theorem extract_append_at (a b : List Nat) (l : Nat) :
    extract (a ++ b) a.length l = extract b 0 l := by
  have := extract_append_right a b 0 l
  simpa using this

theorem extract_shift_gen (a b : List Nat) (o l : Nat) (h : a.length ≤ o) :
    extract (a ++ b) o l = extract b (o - a.length) l := by
  obtain ⟨k, rfl⟩ : ∃ k, o = a.length + k := ⟨o - a.length, by omega⟩
  rw [extract_append_right]
  congr 1
  omega

theorem drop_packU32_shift (x : Nat) (rest : List Nat) (o : Nat) (h : 4 ≤ o) :
    (packU32 x ++ rest).drop o = rest.drop (o - 4) := by
  rw [List.drop_append_eq_append_drop]
  have h1 : (packU32 x).drop o = [] := List.drop_eq_nil_of_le (by simp; omega)
  simp [h1]

theorem drop_packU16_shift (x : Nat) (rest : List Nat) (o : Nat) (h : 2 ≤ o) :
    (packU16 x ++ rest).drop o = rest.drop (o - 2) := by
  rw [List.drop_append_eq_append_drop]
  have h1 : (packU16 x).drop o = [] := List.drop_eq_nil_of_le (by simp; omega)
  simp [h1]

theorem regionDump_length (r : RegionRec) :
    (regionDump r).length = 12 + (packbits r.mask).length := by
  simp [regionDump]
  omega

theorem regionLoad_regionDump (r : RegionRec) (h : RegionFit r) :
    regionLoad (regionDump r) = .ok r := by
  obtain ⟨h1, h2, h3, h4, h5, h6⟩ := h
  have hlen := regionDump_length r
  rw [regionLoad]
  rw [if_neg (by omega)]
  unfold regionDump
  rw [extract_packU32_shift _ _ 4 2 (by omega), extract_packU16_self]
  rw [extract_packU32_shift _ _ 6 2 (by omega),
    extract_packU16_shift _ _ 2 2 (by omega), extract_packU16_self]
  rw [extract_packU32_shift _ _ 8 2 (by omega),
    extract_packU16_shift _ _ 4 2 (by omega),
    extract_packU16_shift _ _ 2 2 (by omega), extract_packU16_self]
  rw [extract_packU32_shift _ _ 10 2 (by omega),
    extract_packU16_shift _ _ 6 2 (by omega),
    extract_packU16_shift _ _ 4 2 (by omega),
    extract_packU16_shift _ _ 2 2 (by omega), extract_packU16_self]
  rw [drop_packU32_shift _ _ 12 (by omega),
    drop_packU16_shift _ _ 8 (by omega),
    drop_packU16_shift _ _ 6 (by omega),
    drop_packU16_shift _ _ 4 (by omega),
    drop_packU16_shift _ _ 2 (by omega)]
  simp only [List.drop_zero]
  rw [unpackU16_packU16 _ (by omega), unpackU16_packU16 _ (by omega),
    unpackU16_packU16 _ (by omega), unpackU16_packU16 _ (by omega)]
  rw [if_pos (by rw [← h5]; exact length_unpackbits_packbits _)]
  norm_num
  rw [← h5, take_unpackbits_packbits]

theorem regionsLoadAux_regionsDump (rs : List RegionRec)
    (hfit : ∀ r ∈ rs, RegionFit r) :
    ∀ fuel, (regionsDump rs).length ≤ fuel →
      regionsLoadAux fuel (regionsDump rs) = .ok rs := by
  induction rs with
  | nil =>
    intro fuel _
    rw [regionsLoadAux.eq_def]
    simp [regionsDump]
  | cons r rs ih =>
    intro fuel hf
    have hr : RegionFit r := hfit r (by simp)
    have hlen := regionDump_length r
    have h6 : 12 + (packbits r.mask).length < 4294967296 := hr.2.2.2.2.2
    have hdump : regionsDump (r :: rs) = regionDump r ++ regionsDump rs := by
      simp [regionsDump]
    rw [hdump] at hf ⊢
    have hbuflen : (regionDump r ++ regionsDump rs).length
        = (regionDump r).length + (regionsDump rs).length := by
      simp
    have hne : regionDump r ++ regionsDump rs ≠ [] := by
      intro hcon
      have := congrArg List.length hcon
      rw [hbuflen] at this
      simp only [List.length_nil] at this
      omega
    cases fuel with
    | zero =>
      exfalso
      rw [hbuflen] at hf
      omega
    | succ f =>
      rw [regionsLoadAux.eq_def]
      rw [if_neg hne]
      simp only []
      rw [if_neg (by rw [hbuflen]; omega)]
      have hfield : extract (regionDump r ++ regionsDump rs) 0 4
          = packU32 ((regionDump r).length) := by
        rw [extract_append_left _ _ _ _ (by omega)]
        conv_lhs => rw [regionDump]
        rw [extract_packU32_self]
        congr 1
      rw [hfield, unpackU32_packU32 _ (by omega)]
      rw [extract_front _ _ _ rfl]
      rw [regionLoad_regionDump r hr]
      rw [List.drop_left]
      rw [ih (fun x hx => hfit x (by simp [hx])) f (by rw [hbuflen] at hf; omega)]
      rfl

theorem regionsLoad_regionsDump (rs : List RegionRec)
    (hfit : ∀ r ∈ rs, RegionFit r) :
    regionsLoad (regionsDump rs) = .ok rs :=
  regionsLoadAux_regionsDump rs hfit _ le_rfl

theorem segDump_length (key : Nat) (s : SegRec) :
    (segDump key s).length = 16 + (regionsDump s.regions).length := by
  simp [segDump]
  omega

theorem segLoad_segDump (key : Nat) (s : SegRec) (hkey : key < 4294967296)
    (h : SegFit s) : segLoad (segDump key s) = .ok (key, s) := by
  obtain ⟨h1, h2, h3, h4, h5, h6⟩ := h
  have hlen := segDump_length key s
  rw [segLoad, if_neg (by omega)]
  unfold segDump
  rw [extract_packU32_self]
  rw [extract_packU32_shift _ _ 4 2 (by omega), extract_packU16_self]
  rw [extract_packU32_shift _ _ 6 2 (by omega),
    extract_packU16_shift _ _ 2 2 (by omega), extract_packU16_self]
  rw [extract_packU32_shift _ _ 8 2 (by omega),
    extract_packU16_shift _ _ 4 2 (by omega),
    extract_packU16_shift _ _ 2 2 (by omega), extract_packU16_self]
  rw [extract_packU32_shift _ _ 10 2 (by omega),
    extract_packU16_shift _ _ 6 2 (by omega),
    extract_packU16_shift _ _ 4 2 (by omega),
    extract_packU16_shift _ _ 2 2 (by omega), extract_packU16_self]
  rw [extract_packU32_shift _ _ 12 4 (by omega),
    extract_packU16_shift _ _ 8 4 (by omega),
    extract_packU16_shift _ _ 6 4 (by omega),
    extract_packU16_shift _ _ 4 4 (by omega),
    extract_packU16_shift _ _ 2 4 (by omega), extract_packU32_self]
  rw [drop_packU32_shift _ _ 16 (by omega),
    drop_packU16_shift _ _ 12 (by omega),
    drop_packU16_shift _ _ 10 (by omega),
    drop_packU16_shift _ _ 8 (by omega),
    drop_packU16_shift _ _ 6 (by omega),
    drop_packU32_shift _ _ 4 (by omega)]
  norm_num
  rw [unpackU32_packU32 _ hkey, unpackU32_packU32 _ h5,
    unpackU16_packU16 _ h1, unpackU16_packU16 _ h2,
    unpackU16_packU16 _ h3, unpackU16_packU16 _ h4]
  rw [regionsLoad_regionsDump _ h6]
  rfl

theorem iidDump_length (key : Nat) (r : IIDRec) :
    (iidDump key r).length = 12 + (domBytes r.domain).length + r.iid.length := by
  simp [iidDump]
  omega

theorem iidLoad_iidDump (key : Nat) (r : IIDRec) (hkey : key < 4294967296)
    (hd : (domBytes r.domain).length < 4294967296)
    (hi : r.iid.length < 4294967296) :
    iidLoad (iidDump key r) = .ok ⟨key, normDomain r.domain, r.iid⟩ := by
  have hlen := iidDump_length key r
  rw [iidLoad, if_neg (by omega)]
  unfold iidDump
  rw [extract_packU32_self]
  rw [extract_packU32_shift _ _ 4 4 (by omega), extract_packU32_self]
  rw [extract_packU32_shift _ _ 8 4 (by omega),
    extract_packU32_shift _ _ 4 4 (by omega), extract_packU32_self]
  rw [unpackU32_packU32 _ hkey, unpackU32_packU32 _ hd, unpackU32_packU32 _ hi]
  simp only []
  have hdom : extract (packU32 key ++ (packU32 (domBytes r.domain).length ++
      (packU32 r.iid.length ++ (domBytes r.domain ++ r.iid)))) 12
      (domBytes r.domain).length = domBytes r.domain := by
    rw [extract_packU32_shift _ _ 12 _ (by omega),
      extract_packU32_shift _ _ 8 _ (by omega),
      extract_packU32_shift _ _ 4 _ (by omega)]
    norm_num
    exact extract_front _ _ _ rfl
  have hiid : extract (packU32 key ++ (packU32 (domBytes r.domain).length ++
      (packU32 r.iid.length ++ (domBytes r.domain ++ r.iid)))) (12 +
      (domBytes r.domain).length) r.iid.length = r.iid := by
    rw [extract_packU32_shift _ _ _ _ (by omega),
      extract_packU32_shift _ _ _ _ (by omega),
      extract_packU32_shift _ _ _ _ (by omega)]
    have : 12 + (domBytes r.domain).length - 4 - 4 - 4
        = (domBytes r.domain).length := by omega
    rw [this]
    simp only [extract, List.drop_left]
    exact List.take_of_length_le le_rfl
  rw [hdom, hiid]
  unfold normDomain
  by_cases hz : (domBytes r.domain).length = 0
  · rw [if_pos hz, if_pos (List.length_eq_zero.mp hz)]
  · rw [if_neg hz, if_neg (fun hcon => hz (by rw [hcon]; rfl))]

theorem lutSlotDump_length (s : LutSlot) : (lutSlotDump s).length = 20 := by
  simp [lutSlotDump]

theorem lutSlotLoad_lutSlotDump (s : LutSlot) (h1 : s.storedKey < 4294967296)
    (h2 : s.iidOff < 4294967296) (h3 : s.iidLen < 4294967296)
    (h4 : s.segOff < 4294967296) (h5 : s.segLen < 4294967296) :
    lutSlotLoad (lutSlotDump s) = .ok s := by
  rw [lutSlotLoad, if_neg (by rw [lutSlotDump_length]; omega)]
  unfold lutSlotDump
  rw [extract_packU32_self]
  rw [extract_packU32_shift _ _ 4 4 (by omega), extract_packU32_self]
  rw [extract_packU32_shift _ _ 8 4 (by omega),
    extract_packU32_shift _ _ 4 4 (by omega), extract_packU32_self]
  rw [extract_packU32_shift _ _ 12 4 (by omega),
    extract_packU32_shift _ _ 8 4 (by omega),
    extract_packU32_shift _ _ 4 4 (by omega), extract_packU32_self]
  rw [extract_packU32_shift _ _ 16 4 (by omega),
    extract_packU32_shift _ _ 12 4 (by omega),
    extract_packU32_shift _ _ 8 4 (by omega),
    extract_packU32_shift _ _ 4 4 (by omega)]
  norm_num
  rw [extract_packU32_all]
  rw [unpackU32_packU32 _ h1, unpackU32_packU32 _ h2, unpackU32_packU32 _ h3,
    unpackU32_packU32 _ h4, unpackU32_packU32 _ h5]

theorem headerDump_length (h : HeaderRec) : (headerDump h).length = 48 := by
  simp [headerDump, buflocDump]

theorem blockOffset_succ (bufs : List (List Nat)) (k : Nat) (h : k < bufs.length) :
    blockOffset bufs (k + 1) = blockOffset bufs k + (bufs.getD k []).length := by
  induction bufs generalizing k with
  | nil => simp at h
  | cons b bs ih =>
    cases k with
    | zero => simp [blockOffset]
    | succ j =>
      have hj : j < bs.length := by simpa using h
      have := ih j hj
      simp only [blockOffset, List.take_succ_cons, sumLen_cons,
        List.getD_cons_succ] at *
      omega

theorem blockOffset_add_le (bufs : List (List Nat)) (k : Nat) (h : k < bufs.length) :
    blockOffset bufs k + (bufs.getD k []).length ≤ sumLen bufs := by
  rw [← blockOffset_succ bufs k h]
  exact blockOffset_le_sumLen bufs (k + 1)

theorem blockOffset_const (bufs : List (List Nat)) (s : Nat)
    (h : ∀ b ∈ bufs, b.length = s) (i : Nat) (hi : i ≤ bufs.length) :
    blockOffset bufs i = s * i := by
  induction bufs generalizing i with
  | nil =>
    have : i = 0 := by simpa using hi
    simp [this, blockOffset]
  | cons b bs ih =>
    cases i with
    | zero => simp [blockOffset]
    | succ j =>
      have hb : b.length = s := h b (by simp)
      have hstep := ih (fun x hx => h x (by simp [hx])) j (by simpa using hi)
      simp only [blockOffset, List.take_succ_cons, sumLen_cons] at hstep ⊢
      rw [Nat.mul_succ]
      omega

theorem getD_mem_of_lt {α : Type} {l : List α} {d : α} {k : Nat}
    (h : k < l.length) : l.getD k d ∈ l := by
  rw [List.getD_eq_getElem _ _ h]
  exact List.getElem_mem h

theorem mem_enum_elim {α : Type} (l : List α) (p : Nat × α) (hp : p ∈ l.enum) :
    ∃ h : p.1 < l.length, l.get ⟨p.1, h⟩ = p.2 := by
  obtain ⟨i, hi, he⟩ := List.mem_iff_getElem.mp hp
  rw [List.getElem_enum] at he
  subst he
  exact ⟨by simpa using hi, by simp⟩

/-- Extracting the `i`-th 4-byte field from a buffer of packed u32 fields. -/
theorem u32Fields_extract (xs : List Nat) (rest : List Nat) (i : Nat)
    (hi : i < xs.length) :
    extract ((xs.map packU32).flatten ++ rest) (4 * i) 4
      = packU32 (xs.getD i 0) := by
  induction xs generalizing i with
  | nil => simp at hi
  | cons x xs ih =>
    cases i with
    | zero =>
      simp only [List.map_cons, List.flatten_cons, Nat.mul_zero,
        List.getD_cons_zero, List.append_assoc]
      exact extract_front _ _ _ rfl
    | succ j =>
      have hj : j < xs.length := by simpa using hi
      simp only [List.map_cons, List.flatten_cons, List.getD_cons_succ,
        List.append_assoc]
      rw [extract_packU32_shift _ _ _ _ (by omega)]
      have : 4 * (j + 1) - 4 = 4 * j := by omega
      rw [this]
      exact ih j hj

theorem headerDump_eq_fields (h : HeaderRec) :
    headerDump h = ((headerFields h).map packU32).flatten := by
  simp [headerDump, headerFields, buflocDump]

theorem headerLoad_append (h : HeaderRec) (rest : List Nat)
    (hb : ∀ x ∈ headerFields h, x < 4294967296) :
    headerLoad (headerDump h ++ rest)
      = { h with rformat := if h.version = 0 then 0 else h.rformat } := by
  have key : ∀ i, i < 12 →
      unpackU32 (extract (headerDump h ++ rest) (4 * i) 4)
        = (headerFields h).getD i 0 := by
    intro i hi
    rw [headerDump_eq_fields]
    rw [u32Fields_extract _ rest i (by simp [headerFields]; omega)]
    apply unpackU32_packU32
    apply hb
    exact getD_mem_of_lt (by simp [headerFields]; omega)
  have e0 := key 0 (by norm_num)
  have e1 := key 1 (by norm_num)
  have e2 := key 2 (by norm_num)
  have e3 := key 3 (by norm_num)
  have e4 := key 4 (by norm_num)
  have e5 := key 5 (by norm_num)
  have e6 := key 6 (by norm_num)
  have e7 := key 7 (by norm_num)
  have e8 := key 8 (by norm_num)
  have e9 := key 9 (by norm_num)
  have e10 := key 10 (by norm_num)
  have e11 := key 11 (by norm_num)
  norm_num [headerFields, List.getD] at e0 e1 e2 e3 e4 e5 e6 e7 e8 e9 e10 e11
  unfold headerLoad
  rw [e0, e1, e2, e3, e4, e5, e6, e7, e8, e9, e10, e11]

theorem lutBufFresh_length (es : List AddEntry) :
    (lutBufFresh es).length = 20 * es.length := by
  have key : ∀ l : List LutSlot, ((l.map lutSlotDump).map List.length).sum
      = 20 * l.length := by
    intro l
    induction l with
    | nil => simp
    | cons x xs ih =>
      simp only [List.map_cons, List.sum_cons, lutSlotDump_length, ih,
        List.length_cons]
      omega
  simp only [lutBufFresh, List.length_flatten, key, lutSlotsFresh,
    List.length_map, List.length_range]

theorem iidBufs_length (es : List AddEntry) :
    (iidBufs es).length = es.length := by
  simp [iidBufs]

theorem segBufs_length (es : List AddEntry) :
    (segBufs es).length = es.length := by
  simp [segBufs]

theorem iidBufs_getD (es : List AddEntry) (k : Nat) (hk : k < es.length) :
    (iidBufs es).getD k [] = iidDump k (es.get ⟨k, hk⟩).iid := by
  rw [List.getD_eq_getElem _ _ (by rw [iidBufs_length]; omega)]
  simp [iidBufs, List.getElem_enum]

theorem segBufs_getD (es : List AddEntry) (k : Nat) (hk : k < es.length) :
    (segBufs es).getD k [] = segDump k (es.get ⟨k, hk⟩).seg := by
  rw [List.getD_eq_getElem _ _ (by rw [segBufs_length]; omega)]
  simp [segBufs, List.getElem_enum]

theorem fileDump_length (es : List AddEntry) :
    (fileDump es).length = 48 + (lutBufFresh es).length
      + (iidBufs es).flatten.length + 8 + (segBufs es).flatten.length := by
  simp only [fileDump, fileRest, List.length_append, headerDump_length]
  simp [metaBytesEmpty, groupsBytesEmpty]
  omega

theorem fileDump_shift (es : List AddEntry) (o l : Nat) (h : 48 ≤ o) :
    extract (fileDump es) o l = extract (fileRest es) (o - 48) l := by
  rw [fileDump, extract_shift_gen _ _ _ _ (by rw [headerDump_length]; omega),
    headerDump_length]

theorem fileDump_extract_slot (es : List AddEntry) (k : Nat)
    (hk : k < es.length) :
    extract (fileDump es) (48 + 20 * k) 20 = lutSlotDump (slotAt es k) := by
  rw [fileDump_shift _ _ _ (by omega)]
  have h1 : 48 + 20 * k - 48 = 20 * k := by omega
  rw [h1, fileRest]
  rw [extract_append_left _ _ _ _ (by rw [lutBufFresh_length]; omega)]
  have hmem : ∀ b ∈ (lutSlotsFresh es).map lutSlotDump, b.length = 20 := by
    intro b hb
    obtain ⟨s, _, rfl⟩ := List.mem_map.mp hb
    exact lutSlotDump_length s
  have hklen : k < ((lutSlotsFresh es).map lutSlotDump).length := by
    simp [lutSlotsFresh]
    omega
  have hbo : blockOffset ((lutSlotsFresh es).map lutSlotDump) k = 20 * k :=
    blockOffset_const _ 20 hmem k (by simp [lutSlotsFresh]; omega)
  have hflat := extract_flatten ((lutSlotsFresh es).map lutSlotDump) k hklen
  have hget : ((lutSlotsFresh es).map lutSlotDump).getD k []
      = lutSlotDump (slotAt es k) := by
    rw [List.getD_eq_getElem _ _ hklen]
    simp [lutSlotsFresh]
  rw [hbo, hget] at hflat
  rw [lutSlotDump_length] at hflat
  rw [lutBufFresh]
  exact hflat

theorem fileDump_extract_iid (es : List AddEntry) (k : Nat)
    (hk : k < es.length) :
    extract (fileDump es)
      (48 + (lutBufFresh es).length + blockOffset (iidBufs es) k)
      ((iidBufs es).getD k []).length = (iidBufs es).getD k [] := by
  rw [fileDump_shift _ _ _ (by omega)]
  have h1 : 48 + (lutBufFresh es).length + blockOffset (iidBufs es) k - 48
      = (lutBufFresh es).length + blockOffset (iidBufs es) k := by omega
  rw [h1, fileRest]
  rw [extract_append_right]
  have hk' : k < (iidBufs es).length := by rw [iidBufs_length]; omega
  have hle := blockOffset_add_le (iidBufs es) k hk'
  rw [sumLen_eq_length_flatten] at hle
  rw [extract_append_left _ _ _ _ hle]
  exact extract_flatten _ k hk'

theorem fileDump_extract_meta (es : List AddEntry) :
    extract (fileDump es)
      (48 + (lutBufFresh es).length + (iidBufs es).flatten.length) 2
      = metaBytesEmpty := by
  rw [fileDump_shift _ _ _ (by omega)]
  have h1 : 48 + (lutBufFresh es).length + (iidBufs es).flatten.length - 48
      = (lutBufFresh es).length + (iidBufs es).flatten.length := by omega
  rw [h1, fileRest, extract_append_right, extract_append_at]
  have : extract (metaBytesEmpty ++ (groupsBytesEmpty ++ (segBufs es).flatten))
      0 2 = metaBytesEmpty := extract_front _ _ _ rfl
  exact this

theorem fileDump_extract_groups (es : List AddEntry) :
    extract (fileDump es)
      (48 + (lutBufFresh es).length + (iidBufs es).flatten.length + 2) 6
      = groupsBytesEmpty := by
  rw [fileDump_shift _ _ _ (by omega)]
  have h1 : 48 + (lutBufFresh es).length + (iidBufs es).flatten.length + 2 - 48
      = (lutBufFresh es).length + ((iidBufs es).flatten.length + 2) := by omega
  rw [h1, fileRest, extract_append_right]
  have h2 : (iidBufs es).flatten.length + 2
      = (iidBufs es).flatten.length + 2 := rfl
  rw [extract_append_right]
  have h3 : (2 : Nat) = metaBytesEmpty.length + 0 := by simp [metaBytesEmpty]
  rw [h3, extract_append_right]
  exact extract_front _ _ _ rfl

theorem fileDump_extract_seg (es : List AddEntry) (k : Nat)
    (hk : k < es.length) :
    extract (fileDump es)
      (48 + (lutBufFresh es).length + (iidBufs es).flatten.length + 8
        + blockOffset (segBufs es) k)
      ((segBufs es).getD k []).length = (segBufs es).getD k [] := by
  rw [fileDump_shift _ _ _ (by omega)]
  have h1 : 48 + (lutBufFresh es).length + (iidBufs es).flatten.length + 8
      + blockOffset (segBufs es) k - 48
      = (lutBufFresh es).length + ((iidBufs es).flatten.length
        + (2 + (6 + blockOffset (segBufs es) k))) := by omega
  rw [h1, fileRest, extract_append_right, extract_append_right]
  have h2 : (2 : Nat) + (6 + blockOffset (segBufs es) k)
      = metaBytesEmpty.length + (6 + blockOffset (segBufs es) k) := by
    simp [metaBytesEmpty]
  rw [h2, extract_append_right]
  have h3 : (6 : Nat) + blockOffset (segBufs es) k
      = groupsBytesEmpty.length + blockOffset (segBufs es) k := by
    simp [groupsBytesEmpty]
  rw [h3, extract_append_right]
  have hk' : k < (segBufs es).length := by rw [segBufs_length]; omega
  exact extract_flatten _ k hk'

theorem mapM_map_ok {α β γ : Type} (F : α → β) (f : β → Except String γ)
    (g : α → γ) (l : List α) (h : ∀ x ∈ l, f (F x) = .ok (g x)) :
    (l.map F).mapM f = .ok (l.map g) := by
  induction l with
  | nil => rfl
  | cons x xs ih =>
    have hx := h x (by simp)
    have hxs := ih (fun y hy => h y (by simp [hy]))
    simp only [List.map_cons, List.mapM_cons, hx, hxs]
    rfl

theorem headerLoad_fileDump (es : List AddEntry) (hfit : FitAll es) :
    headerLoad (fileDump es) = fileHeaderRec es := by
  obtain ⟨hn, hsz, _⟩ := hfit
  have hL := lutBufFresh_length es
  rw [fileDump, headerLoad_append]
  · simp [fileHeaderRec]
  · intro x hx
    simp only [headerFields, fileHeaderRec, List.mem_cons,
      List.not_mem_nil, or_false, ite_self] at hx
    rcases hx with rfl | rfl | rfl | rfl | rfl | rfl | rfl | rfl | rfl | rfl
      | rfl | rfl <;> omega

theorem lutStage (es : List AddEntry) (hfit : FitAll es) :
    ((List.range ((lutBufFresh es).length / 20)).mapM fun k =>
      lutSlotLoad (extract (fileDump es) (48 + 20 * k) 20))
      = .ok (lutSlotsFresh es) := by
  obtain ⟨hn, hsz, hent⟩ := hfit
  have hL := lutBufFresh_length es
  have hdiv : (lutBufFresh es).length / 20 = es.length := by
    rw [hL]
    omega
  rw [hdiv]
  rw [lutSlotsFresh]
  apply mapM_ok
  intro k hkmem
  have hk : k < es.length := List.mem_range.mp hkmem
  rw [fileDump_extract_slot es k hk]
  have hio := blockOffset_le_sumLen (iidBufs es) k
  have hso := blockOffset_le_sumLen (segBufs es) k
  rw [sumLen_eq_length_flatten] at hio hso
  have hil : ((iidBufs es).getD k []).length ≤ (iidBufs es).flatten.length := by
    rw [← sumLen_eq_length_flatten]
    exact length_le_sumLen (getD_mem_of_lt (by rw [iidBufs_length]; omega))
  have hsl : ((segBufs es).getD k []).length ≤ (segBufs es).flatten.length := by
    rw [← sumLen_eq_length_flatten]
    exact length_le_sumLen (getD_mem_of_lt (by rw [segBufs_length]; omega))
  have hnk : es.length < 4294967296 := hn
  exact lutSlotLoad_lutSlotDump _ (by simp only [slotAt]; omega)
    (by simp only [slotAt]; omega) (by simp only [slotAt]; omega)
    (by simp only [slotAt]; omega) (by simp only [slotAt]; omega)

theorem iidStage (es : List AddEntry) (hfit : FitAll es) :
    ((lutSlotsFresh es).enum.mapM fun p =>
      (iidLoad (extract (fileDump es)
        (48 + (lutBufFresh es).length + p.2.iidOff) p.2.iidLen)).map fun ir =>
        LoadedEntry.mk p.1 ir.key ir.domain ir.iid p.2.segOff p.2.segLen)
      = .ok (expectedEntries es) := by
  obtain ⟨hn, hsz, hent⟩ := hfit
  have hres : ((lutSlotsFresh es).enum.map fun p =>
      LoadedEntry.mk p.1 p.1 (normDomain ((es.getD p.1 default).iid.domain))
        (es.getD p.1 default).iid.iid (blockOffset (segBufs es) p.1)
        ((segBufs es).getD p.1 []).length) = expectedEntries es := by
    apply List.ext_getElem
    · simp [lutSlotsFresh, expectedEntries]
    · intro i h1 h2
      have hi : i < es.length := by
        simpa [expectedEntries] using h2
      simp only [List.getElem_map, List.getElem_enum, expectedEntries]
      rw [List.getD_eq_getElem _ _ hi]
  rw [← hres]
  apply mapM_ok
  intro p hp
  obtain ⟨hp1, hp2⟩ := mem_enum_elim _ p hp
  have hk : p.1 < es.length := by
    simpa [lutSlotsFresh] using hp1
  have hslot : p.2 = slotAt es p.1 := by
    rw [← hp2]
    simp [lutSlotsFresh, List.get_eq_getElem]
  have hemem : es.get ⟨p.1, hk⟩ ∈ es := List.get_mem es p.1 hk
  obtain ⟨hseg, hdml, hiil⟩ := hent _ hemem
  rw [hslot]
  show (iidLoad (extract (fileDump es)
      (48 + (lutBufFresh es).length + blockOffset (iidBufs es) p.1)
      ((iidBufs es).getD p.1 []).length)).map _ = _
  rw [fileDump_extract_iid es p.1 hk, iidBufs_getD es p.1 hk]
  rw [iidLoad_iidDump p.1 _ (by omega) hdml hiil]
  show Except.ok _ = Except.ok _
  congr 1
  simp only [slotAt]
  rw [List.getD_eq_getElem _ _ hk]
  rfl

theorem groupsLoadBytes_empty : groupsLoadBytes groupsBytesEmpty = .ok () := by
  rfl

theorem openIIDFile_fileDump (es : List AddEntry) (hfit : FitAll es) :
    openIIDFile (fileDump es) = .ok (expectedLoaded es) := by
  have hflen := fileDump_length es
  rw [openIIDFile]
  rw [if_neg (by rw [hflen]; omega)]
  rw [headerLoad_fileDump es hfit]
  simp only [fileHeaderRec]
  rw [fileDump_extract_meta es]
  rw [if_neg (by simp [jsonLoadsOk, metaBytesEmpty])]
  rw [fileDump_extract_groups es, groupsLoadBytes_empty]
  rw [lutStage es hfit]
  show Except.bind (Except.ok ()) _ = _
  rw [Except.bind]
  show Except.bind (Except.ok (lutSlotsFresh es)) _ = _
  rw [Except.bind]
  rw [iidStage es hfit]
  show Except.bind (Except.ok (expectedEntries es)) _ = _
  rw [Except.bind]
  rw [expectedLoaded]
  simp only [fileHeaderRec]

theorem fetchAllSegs_fileDump (es : List AddEntry) (hfit : FitAll es) :
    fetchAllSegs (fileDump es) (expectedLoaded es)
      = .ok (es.enum.map fun p => (p.1, p.2.seg)) := by
  obtain ⟨hn, hsz, hent⟩ := hfit
  rw [fetchAllSegs]
  show (es.enum.map _).mapM _ = _
  apply mapM_map_ok
  intro p hp
  obtain ⟨hp1, hp2⟩ := mem_enum_elim _ p hp
  have hmem : p.2 ∈ es := by
    rw [← hp2]
    exact List.get_mem es p.1 hp1
  obtain ⟨hseg, _, _⟩ := hent _ hmem
  show segLoad (extract (fileDump es)
    (48 + (lutBufFresh es).length + (iidBufs es).flatten.length + 8
      + blockOffset (segBufs es) p.1) ((segBufs es).getD p.1 []).length) = _
  rw [fileDump_extract_seg es p.1 hp1, segBufs_getD es p.1 hp1]
  rw [hp2]
  exact segLoad_segDump p.1 _ (by omega) hseg

theorem pairwise_eq_or {α : Type} {R : α → α → Prop} {l : List α}
    (hp : l.Pairwise R) {a b : α} (ha : a ∈ l) (hb : b ∈ l) :
    a = b ∨ R a b ∨ R b a := by
  induction l with
  | nil => cases ha
  | cons x xs ih =>
    obtain ⟨hx, hp2⟩ := List.pairwise_cons.mp hp
    rcases List.mem_cons.mp ha with rfl | ha2
    · rcases List.mem_cons.mp hb with rfl | hb2
      · exact Or.inl rfl
      · exact Or.inr (Or.inl (hx b hb2))
    · rcases List.mem_cons.mp hb with rfl | hb2
      · exact Or.inr (Or.inr (hx a ha2))
      · exact ih hp2 ha2 hb2

theorem bboxDisjoint_not_both {a b : RegionG} {r c : Nat}
    (hd : bboxDisjoint a b) (hca : coversR a r c) : ¬ coversR b r c := by
  intro hcb
  unfold bboxDisjoint at hd
  unfold coversR at hca hcb
  omega

/-- Translating by the origin and back cancels, so the buffer of
`from_buffer`'s segment is the plain fold of the labeled regions. -/
theorem segBuffer_from_buffer (minr minc maxr maxc : Nat)
    (labeled : List RegionG) :
    segBuffer (from_buffer minr minc maxr maxc labeled)
      = labeled.foldl stampStep (fun _ _ => false) := by
  rw [segBuffer, from_buffer]
  simp only [List.foldl_map]
  congr 1
  funext buf reg
  simp [stampStep, Nat.add_sub_cancel]

theorem stampAll_not_covered (rs : List RegionG) (buf : Grid) (r c : Nat)
    (h : ∀ reg ∈ rs, ¬ coversR reg r c) :
    rs.foldl stampStep buf r c = buf r c := by
  induction rs generalizing buf with
  | nil => rfl
  | cons a rs ih =>
    rw [List.foldl_cons]
    rw [ih _ (fun reg hreg => h reg (by simp [hreg]))]
    have hna := h a (by simp)
    simp only [stampStep, stampAssign]
    rw [if_neg (by simpa [coversR] using hna)]

theorem stampAll_covered (rs : List RegionG) (buf : Grid) (r c : Nat)
    (hdisj : rs.Pairwise bboxDisjoint) (reg : RegionG) (hmem : reg ∈ rs)
    (hcov : coversR reg r c) :
    rs.foldl stampStep buf r c = reg.mask (r - reg.minr) (c - reg.minc) := by
  induction rs generalizing buf with
  | nil => cases hmem
  | cons a rs ih =>
    obtain ⟨ha, hp2⟩ := List.pairwise_cons.mp hdisj
    rw [List.foldl_cons]
    rcases List.mem_cons.mp hmem with rfl | hmem2
    · have hnone : ∀ x ∈ rs, ¬ coversR x r c := fun x hx =>
        bboxDisjoint_not_both (ha x hx) hcov
      rw [stampAll_not_covered rs _ r c hnone]
      simp only [stampStep, stampAssign]
      rw [if_pos (by simpa [coversR] using hcov)]
    · exact ih _ hp2 hmem2

theorem allKeys_spec (f : FileMem)
    (H1 : ∀ k, ∀ h : k < f.entries.length,
      ∃ e, f.entries.get ⟨k, h⟩ = some e ∧ e.key = k) :
    allKeys f = .ok (List.range f.entries.length) := by
  rw [allKeys]
  have hmm : f.entries.mapM (fun o =>
      match o with
      | some e => Except.ok e.key
      | none => Except.error "AttributeError: NoneType has no attribute key")
      = Except.ok (f.entries.map fun o => (o.map FEntry.key).getD 0) := by
    apply mapM_ok
    intro o ho
    obtain ⟨k, hk, hok⟩ := List.mem_iff_getElem.mp ho
    obtain ⟨e, he, _⟩ := H1 k hk
    rw [List.get_eq_getElem] at he
    rw [hok] at he
    subst he
    rfl
  rw [hmm]
  have hrange : (f.entries.map fun o => (o.map FEntry.key).getD 0)
      = List.range f.entries.length := by
    apply List.ext_getElem
    · simp
    · intro i h1 h2
      obtain ⟨e, he, hekey⟩ := H1 i (by simpa using h1)
      rw [List.get_eq_getElem] at he
      simp only [List.getElem_map, List.getElem_range]
      rw [he]
      simpa using hekey
  rw [hrange]
  show Except.ok _ = _
  rw [(List.nodup_range _).dedup]

theorem groupKeys_spec (f : FileMem) (gs : List String)
    (H2 : ∀ n ∈ gs, ∃ ks, f.groups.lookup n = some ks) :
    groupKeys f gs
      = .ok ((gs.map fun n => (f.groups.lookup n).getD []).flatten.dedup) := by
  rw [groupKeys]
  have hmm : (gs.mapM fun n =>
      match f.groups.lookup n with
      | some ks => Except.ok ks
      | none => Except.error "KeyError: unknown group")
      = Except.ok (gs.map fun n => (f.groups.lookup n).getD []) := by
    apply mapM_ok
    intro n hn
    obtain ⟨ks, hks⟩ := H2 n hn
    rw [hks]
    rfl
  rw [hmm]
  rfl

theorem mem_groupKeysList (f : FileMem) (gs : List String) (k : Nat) :
    k ∈ (gs.map fun n => (f.groups.lookup n).getD []).flatten.dedup
      ↔ keyInGroups f gs k := by
  rw [List.mem_dedup, List.mem_flatten]
  constructor
  · rintro ⟨l, hl, hkl⟩
    obtain ⟨n, hn, rfl⟩ := List.mem_map.mp hl
    cases hlook : f.groups.lookup n with
    | none => rw [hlook] at hkl; simp at hkl
    | some ks =>
      rw [hlook] at hkl
      exact ⟨n, hn, ks, hlook, by simpa using hkl⟩
  · rintro ⟨n, hn, ks, hlook, hk⟩
    refine ⟨(f.groups.lookup n).getD [], List.mem_map.mpr ⟨n, hn, rfl⟩, ?_⟩
    rw [hlook]
    simpa using hk

theorem fetchPlain_spec (f : FileMem) (keys : List Nat)
    (hk : ∀ k ∈ keys, k < f.entries.length) :
    fetchPlain f keys
      = .ok (keys.dedup.map fun k => f.entries.getD k none) := by
  rw [fetchPlain]
  apply mapM_ok
  intro k hkd
  have hklt : k < f.entries.length := hk k (List.mem_dedup.mp hkd)
  rw [dif_pos hklt]
  rw [List.getD_eq_getElem _ _ hklt]
  rfl

theorem optStage_ok (opts : List (Option FEntry))
    (h : ∀ o ∈ opts, o.isSome = true) :
    opts.mapM entryOrRaise = .ok (opts.map fun o => o.getD default) := by
  apply mapM_ok
  intro o ho
  cases o with
  | none =>
    have := h none ho
    simp at this
  | some e => rfl

theorem mem_ents_none (f : FileMem)
    (H1 : ∀ k, ∀ h : k < f.entries.length,
      ∃ e, f.entries.get ⟨k, h⟩ = some e ∧ e.key = k) (e : FEntry) :
    (e ∈ (List.range f.entries.length).map fun k =>
      (f.entries.getD k none).getD default)
      ↔ ∃ h : e.key < f.entries.length, f.entries.get ⟨e.key, h⟩ = some e := by
  constructor
  · intro he
    obtain ⟨k, hkmem, heq⟩ := List.mem_map.mp he
    have hk : k < f.entries.length := List.mem_range.mp hkmem
    obtain ⟨ek, hek, hekey⟩ := H1 k hk
    rw [List.getD_eq_getElem _ _ hk] at heq
    rw [List.get_eq_getElem] at hek
    rw [hek] at heq
    simp only [Option.getD_some] at heq
    subst heq
    rw [hekey]
    exact ⟨hk, by rw [List.get_eq_getElem]; exact hek⟩
  · rintro ⟨h, hget⟩
    refine List.mem_map.mpr ⟨e.key, List.mem_range.mpr h, ?_⟩
    rw [List.getD_eq_getElem _ _ h]
    rw [List.get_eq_getElem] at hget
    rw [hget]
    rfl

theorem mem_ents_keys (f : FileMem) (U : List Nat)
    (H1 : ∀ k, ∀ h : k < f.entries.length,
      ∃ e, f.entries.get ⟨k, h⟩ = some e ∧ e.key = k)
    (hU : ∀ k ∈ U, k < f.entries.length) (e : FEntry) :
    (e ∈ U.map fun k => (f.entries.getD k none).getD default)
      ↔ (∃ h : e.key < f.entries.length,
          f.entries.get ⟨e.key, h⟩ = some e) ∧ e.key ∈ U := by
  constructor
  · intro he
    obtain ⟨k, hkmem, heq⟩ := List.mem_map.mp he
    have hk : k < f.entries.length := hU k hkmem
    obtain ⟨ek, hek, hekey⟩ := H1 k hk
    rw [List.getD_eq_getElem _ _ hk] at heq
    rw [List.get_eq_getElem] at hek
    rw [hek] at heq
    simp only [Option.getD_some] at heq
    subst heq
    constructor
    · rw [hekey]
      exact ⟨hk, by rw [List.get_eq_getElem]; exact hek⟩
    · rw [hekey]
      exact hkmem
  · rintro ⟨⟨h, hget⟩, hkU⟩
    refine List.mem_map.mpr ⟨e.key, hkU, ?_⟩
    rw [List.getD_eq_getElem _ _ h]
    rw [List.get_eq_getElem] at hget
    rw [hget]
    rfl

theorem domBytes_normDomain (d : Option (List Nat)) :
    domBytes (normDomain d) = domBytes d := by
  unfold normDomain domBytes
  by_cases h : d.getD [] = [] <;> simp [h]

/-- C1: for every sequence of `add(iid_i, seg_i)` calls on a fresh
`IIDFile` (whose values fit the format's fixed-width fields), saving and
reopening yields entries whose identifier bytes, domain bytes, and segment
bboxes and areas (indeed, whole segment records) equal the originals, and
whose keys are exactly `0, 1, …, n−1` in add order. -/
theorem iidfile_c1_add_save_reopen_roundtrip (es : List AddEntry)
    (hfit : FitAll es) :
    ∃ lf, openIIDFile (fileDump es) = .ok lf ∧
      lf.entries.map LoadedEntry.key = List.range es.length ∧
      lf.entries.map LoadedEntry.iidKey = List.range es.length ∧
      lf.entries.map LoadedEntry.iid = es.map (fun e => e.iid.iid) ∧
      lf.entries.map (fun e => domBytes e.domain)
        = es.map (fun e => domBytes e.iid.domain) ∧
      fetchAllSegs (fileDump es) lf
        = .ok (es.enum.map fun p => (p.1, p.2.seg)) := by
  refine ⟨expectedLoaded es, openIIDFile_fileDump es hfit, ?_, ?_, ?_, ?_,
    fetchAllSegs_fileDump es hfit⟩
  · show (expectedEntries es).map LoadedEntry.key = _
    rw [expectedEntries, List.map_map]
    exact List.enum_map_fst es
  · show (expectedEntries es).map LoadedEntry.iidKey = _
    rw [expectedEntries, List.map_map]
    exact List.enum_map_fst es
  · show (expectedEntries es).map LoadedEntry.iid = _
    rw [expectedEntries, List.map_map]
    rw [show (LoadedEntry.iid ∘ fun p : Nat × AddEntry =>
      LoadedEntry.mk p.1 p.1 (normDomain p.2.iid.domain) p.2.iid.iid
        (blockOffset (segBufs es) p.1) (((segBufs es).getD p.1 []).length))
      = ((fun e : AddEntry => e.iid.iid) ∘ Prod.snd) from rfl]
    rw [← List.map_map, List.enum_map_snd]
  · show (expectedEntries es).map (fun e => domBytes e.domain) = _
    rw [expectedEntries, List.map_map]
    rw [show ((fun e => domBytes e.domain) ∘ fun p : Nat × AddEntry =>
      LoadedEntry.mk p.1 p.1 (normDomain p.2.iid.domain) p.2.iid.iid
        (blockOffset (segBufs es) p.1) (((segBufs es).getD p.1 []).length))
      = ((fun e : AddEntry => domBytes e.iid.domain) ∘ Prod.snd) from
      funext fun p => domBytes_normDomain p.2.iid.domain]
    rw [← List.map_map, List.enum_map_snd]

/-- Witness for C1: the two-entry example (one domained entry with a
one-region segment, one undomained entry with a region-less segment)
round-trips. -/
theorem iidfile_c1_witness :
    FitAll c1Example ∧
    (∃ lf, openIIDFile (fileDump c1Example) = .ok lf ∧
      lf.entries.map LoadedEntry.key = List.range c1Example.length ∧
      lf.entries.map LoadedEntry.iidKey = List.range c1Example.length ∧
      lf.entries.map LoadedEntry.iid = c1Example.map (fun e => e.iid.iid) ∧
      lf.entries.map (fun e => domBytes e.domain)
        = c1Example.map (fun e => domBytes e.iid.domain) ∧
      fetchAllSegs (fileDump c1Example) lf
        = .ok (c1Example.enum.map fun p => (p.1, p.2.seg))) :=
  ⟨by decide, iidfile_c1_add_save_reopen_roundtrip c1Example (by decide)⟩

/-- C3 counterexample: the claim pins the encoded mask byte stream of the
bbox-`(0,0,1,13)` alternating mask as `0xAA, 0x88`, but `Region._dump`
(MSB-first `np.packbits`) produces a second byte of `0xA8`, not `0x88`. -/
theorem iidfile_c3_counterexample :
    ¬ (regionDump region13).drop 12 = [170, 136] := by decide

/-- C3 (amended): encoding the region with bbox `(0,0,1,13)` and mask
`[1,0,1,0,1,0,1,0,1,0,1,0,1]` produces the two mask bytes `0xAA, 0xA8`
(bits packed MSB-first, final byte zero-padded), and decoding discards the
three padding bits and recovers the 13-bit mask exactly. -/
theorem iidfile_c3_amended_bitpack :
    (regionDump region13).drop 12 = [170, 168] ∧
    regionLoad (regionDump region13) = .ok region13 := by decide

/-- C4 (code bug): the claim (with §4.2 of the spec) says a `None` tombstone
slot serializes as an all-zero 20-byte record, but `LookupTable.dump` calls
`entry.dump()` on every slot and a `None` slot raises `AttributeError`
instead of producing any bytes. -/
theorem iidfile_c4_tombstone_dump_raises :
    lutDumpMem [none]
      = .error "AttributeError: NoneType has no attribute dump" := by decide

/-- C9 counterexample: a file of exactly 48 zero bytes (header only, all
offset/length pairs zero) does not open: the metadata block is empty and
`json.loads` rejects the empty document, so `IIDFile.__init__` raises. -/
theorem iidfile_c9_counterexample :
    openIIDFile (List.replicate 48 0)
      = .error "json.decoder.JSONDecodeError" := by decide

/-- C9 (amended): a header-only 48-byte file fails to open (empty metadata
is not valid JSON); the minimal empty file — the 56 bytes a fresh `IIDFile`
saves: header, `{}` metadata and an empty groups directory — opens, and
saving the opened instance reproduces exactly the same 56 bytes. -/
theorem iidfile_c9_amended_empty_roundtrip :
    (fileDump []).length = 56 ∧
    (openIIDFile (fileDump [])).bind dumpReopened = .ok (fileDump []) := by
  decide

/-- C10: for every buffer (given through its labeled components) and bbox
`(minr, minc, maxr, maxc)`, `Segment.from_buffer` sets the segment's area
to `(maxc − minc) * (maxr − minr)`, the full bbox rectangle area — not the
number of true pixels, as the 2×2 example with a single true pixel shows
(area 4, one true pixel). -/
theorem iidfile_c10_area_is_bbox_rectangle :
    (∀ (minr minc maxr maxc : Nat) (labeled : List RegionG),
      (from_buffer minr minc maxr maxc labeled).area
        = (maxc - minc) * (maxr - minr)) ∧
    (from_buffer 0 0 2 2 [⟨0, 0, 1, 1, fun _ _ => true⟩]).area = 4 ∧
    countTrue (segBuffer (from_buffer 0 0 2 2
      [⟨0, 0, 1, 1, fun _ _ => true⟩])) 2 2 = 1 ∧
    (4 : Nat) ≠ 1 :=
  ⟨fun _ _ _ _ _ => rfl, by decide, by decide, by decide⟩

/-- C2 counterexample: `Segment.buffer` does not stamp regions by
bitwise-OR: it slice-assigns (`buf[...] = reg.mask`).  On a segment with
two overlapping region bboxes the assignment erases an earlier region's
true pixel, so `buffer()` differs from the OR-stamping the claim
describes. -/
theorem iidfile_c2_counterexample :
    segBuffer c2OverlapSeg 0 0 = false ∧
    segBufferOrSpec c2OverlapSeg 0 0 = true := by decide

/-- C6 counterexample: fetching a tombstoned key does not fail: with
`entries = [None]`, `fetch(keys=[0])` returns `[None]` — no `UnknownKey`
(or any) error is raised. -/
theorem iidfile_c6_counterexample :
    fetchPlain c6File [0] = .ok [none] := by decide

/-- C6 (amended): a key `k ≥ entries.length` makes `fetch(keys=[k])` raise
an index-out-of-range error, while a tombstoned in-range key is returned
as a `None` slot without any error. -/
theorem iidfile_c6_amended_fetch (f : FileMem) (k : Nat) :
    (f.entries.length ≤ k →
      fetchPlain f [k] = .error "IndexError: list index out of range") ∧
    (∀ h : k < f.entries.length, f.entries.get ⟨k, h⟩ = none →
      fetchPlain f [k] = .ok [none]) := by
  have hd : List.dedup [k] = [k] :=
    List.dedup_eq_self.mpr (List.nodup_singleton k)
  constructor
  · intro hge
    rw [fetchPlain, hd]
    simp only [List.mapM_cons, List.mapM_nil]
    rw [dif_neg (by omega)]
    rfl
  · intro h hnone
    rw [fetchPlain, hd]
    simp only [List.mapM_cons, List.mapM_nil]
    rw [dif_pos h, hnone]
    rfl

/-- Witness for C6: in the one-tombstone file, key 3 is out of range and
fails with the index error, while the tombstoned key 0 is returned as a
`None` slot. -/
theorem iidfile_c6_witness :
    fetchPlain c6File [3] = .error "IndexError: list index out of range" ∧
    fetchPlain c6File [0] = .ok [none] :=
  ⟨(iidfile_c6_amended_fetch c6File 3).1 (by decide),
   (iidfile_c6_amended_fetch c6File 0).2 (by decide) (by decide)⟩

/-- C5 counterexample: a 56-byte file whose header version field holds
`999` — a value this reader was never written to recognize — opens
successfully and returns a usable instance; no `UnsupportedVersion` (or
any) error is raised. -/
theorem iidfile_c5_counterexample :
    (openIIDFile (minimalFile 999 0)).isOk = true := by decide

/-- C5 (amended): `Header.load` reads the version field but never validates
it: for every version value (and rformat value) the minimal well-formed
file opens successfully, and the loaded instance simply retains the
version. -/
theorem iidfile_c5_amended_version_ignored (v r : Nat) (hv : v < 4294967296)
    (hr : r < 4294967296) :
    openIIDFile (minimalFile v r)
      = .ok ⟨v, if v = 0 then 0 else r, (48, 0), (48, 0), (48, 2), (50, 6),
        (56, 0), metaBytesEmpty, []⟩ := by
  have hlen : (minimalFile v r).length = 56 := by
    simp [minimalFile, headerDump_length, metaBytesEmpty, groupsBytesEmpty]
  have hh : headerLoad (minimalFile v r)
      = ⟨v, if v = 0 then 0 else r, (48, 0), (48, 0), (48, 2), (50, 6),
        (56, 0)⟩ := by
    rw [minimalFile, headerLoad_append]
    intro x hx
    simp only [headerFields, List.mem_cons, List.not_mem_nil,
      or_false] at hx
    rcases hx with rfl | rfl | rfl | rfl | rfl | rfl | rfl | rfl | rfl
      | rfl | rfl | rfl <;> (try split) <;> omega
  have hmeta : extract (minimalFile v r) 48 2 = metaBytesEmpty := by
    rw [minimalFile,
      extract_shift_gen _ _ _ _ (by rw [headerDump_length]),
      headerDump_length]
    norm_num
    exact extract_front _ _ _ rfl
  have hgroups : extract (minimalFile v r) 50 6 = groupsBytesEmpty := by
    rw [minimalFile,
      extract_shift_gen _ _ _ _ (by rw [headerDump_length]; omega),
      headerDump_length]
    norm_num
    rw [extract_shift_gen _ _ _ _ (by simp [metaBytesEmpty])]
    simp [metaBytesEmpty, extract, groupsBytesEmpty]
  rw [openIIDFile, if_neg (by rw [hlen]; omega), hh]
  show (if !jsonLoadsOk (extract (minimalFile v r) 48 2) = true
    then _ else _) = _
  rw [hmeta]
  rw [if_neg (by simp [jsonLoadsOk, metaBytesEmpty])]
  show Except.bind (groupsLoadBytes (extract (minimalFile v r) 50 6)) _ = _
  rw [hgroups, groupsLoadBytes_empty]
  show Except.bind (Except.ok ()) _ = _
  rw [Except.bind]
  simp only [List.range_zero, List.mapM_nil]
  show Except.bind (Except.ok []) _ = _
  rw [Except.bind]
  simp only [List.enum_nil, List.mapM_nil]
  show Except.bind (Except.ok []) _ = _
  rw [Except.bind]

/-- Witness for C5: opening the minimal file with version 999 and rformat 7
succeeds and retains version 999. -/
theorem iidfile_c5_witness :
    openIIDFile (minimalFile 999 7)
      = .ok ⟨999, if (999 : Nat) = 0 then 0 else 7, (48, 0), (48, 0),
        (48, 2), (50, 6), (56, 0), metaBytesEmpty, []⟩ :=
  iidfile_c5_amended_version_ignored 999 7 (by decide) (by decide)

/-- C2 (amended): `buffer()` stamps each region into its window of the
zeroed segment buffer by slice assignment (not bitwise-OR, which the
counterexample separates); under the labeler contract of §4.4 — pairwise
disjoint region bboxes whose cropped masks union to the input mask — the
round trip holds: for every boolean mask `M` of the bbox's shape,
`Segment.from_buffer(M, B)` followed by `Segment.buffer()` reproduces `M`
on the whole `(maxr−minr) × (maxc−minc)` window. -/
theorem iidfile_c2_amended_roundtrip (minr minc maxr maxc : Nat) (M : Grid)
    (labeled : List RegionG)
    (Hdisj : labeled.Pairwise bboxDisjoint)
    (Hunion : ∀ r, r < maxr - minr → ∀ c, c < maxc - minc →
      (M r c = true ↔ ∃ reg ∈ labeled, coversR reg r c ∧
        reg.mask (r - reg.minr) (c - reg.minc) = true)) :
    ∀ r, r < maxr - minr → ∀ c, c < maxc - minc →
      segBuffer (from_buffer minr minc maxr maxc labeled) r c = M r c := by
  intro r hr c hc
  rw [segBuffer_from_buffer]
  have hiff := Hunion r hr c hc
  by_cases hcov : ∃ reg ∈ labeled, coversR reg r c
  · obtain ⟨reg, hmem, hcovr⟩ := hcov
    rw [stampAll_covered labeled _ r c Hdisj reg hmem hcovr]
    cases hM : M r c with
    | true =>
      obtain ⟨reg2, hmem2, hcov2, hmask2⟩ := hiff.mp hM
      rcases pairwise_eq_or Hdisj hmem hmem2 with rfl | hd | hd
      · exact hmask2
      · exact absurd hcov2 (bboxDisjoint_not_both hd hcovr)
      · exact absurd hcovr (bboxDisjoint_not_both hd hcov2)
    | false =>
      cases hmm : reg.mask (r - reg.minr) (c - reg.minc) with
      | false => rfl
      | true =>
        have := hiff.mpr ⟨reg, hmem, hcovr, hmm⟩
        rw [hM] at this
        exact absurd this (by simp)
  · push_neg at hcov
    rw [stampAll_not_covered labeled _ r c hcov]
    cases hM : M r c with
    | false => rfl
    | true =>
      obtain ⟨reg, hmem, hcov2, _⟩ := hiff.mp hM
      exact absurd hcov2 (hcov reg hmem)

/-- Witness for C2: the 2×2 diagonal mask at bbox `(5,7,7,9)` decomposes
into two one-pixel components with disjoint bboxes, and
`from_buffer`-then-`buffer` reproduces it. -/
theorem iidfile_c2_witness :
    List.Pairwise bboxDisjoint c2Labeled ∧
    (∀ r, r < 7 - 5 → ∀ c, c < 9 - 7 →
      (c2M r c = true ↔ ∃ reg ∈ c2Labeled, coversR reg r c ∧
        reg.mask (r - reg.minr) (c - reg.minc) = true)) ∧
    (∀ r, r < 7 - 5 → ∀ c, c < 9 - 7 →
      segBuffer (from_buffer 5 7 7 9 c2Labeled) r c = c2M r c) :=
  ⟨by decide, by decide,
   iidfile_c2_amended_roundtrip 5 7 7 9 c2M c2Labeled (by decide) (by decide)⟩

/-- C8 counterexample: a `None` lower bound does not impose "no
constraint": it is replaced by `0` and compared strictly, so an entry with
segment area `0` is excluded from `filter(area=(None, 10))` even though
the claim says it should be returned. -/
theorem iidfile_c8_counterexample :
    filterMem c8ZeroFile none (some (none, some 10)) none = .ok [] := by
  decide

/-- C8 (amended): `filter(area=(min, max))` returns exactly the entries
whose segment area `a` satisfies `(min or 0) < a` and `a < max` (when a
max is given), both bounds strictly exclusive; a `None` max imposes no
constraint, while a `None` min behaves as `0`, so area-`0` entries are
never returned.  With stored areas 10, 50, 500, `filter(area=(20, 200))`
returns only the area-50 entry. -/
theorem iidfile_c8_amended_filter :
    (∀ (f : FileMem) (bounds : Option Nat × Option Nat),
      (∀ k, ∀ h : k < f.entries.length,
        ∃ e, f.entries.get ⟨k, h⟩ = some e ∧ e.key = k) →
      ∃ res, filterMem f none (some bounds) none = .ok res ∧
        ∀ e, e ∈ res ↔
          ((∃ h : e.key < f.entries.length,
              f.entries.get ⟨e.key, h⟩ = some e) ∧
           bounds.1.getD 0 < e.area ∧
           ∀ m, bounds.2 = some m → e.area < m)) ∧
    filterMem c8AreasFile none (some (some 20, some 200)) none
      = .ok [⟨1, [98], none, 50⟩] := by
  constructor
  · intro f bounds H1
    have hall := allKeys_spec f H1
    have hfetch := fetchPlain_spec f (List.range f.entries.length)
      (fun k hk => List.mem_range.mp hk)
    rw [(List.nodup_range f.entries.length).dedup] at hfetch
    have hopts : ∀ o ∈ (List.range f.entries.length).map
        (fun k => f.entries.getD k none), o.isSome = true := by
      intro o ho
      obtain ⟨k, hkmem, rfl⟩ := List.mem_map.mp ho
      have hk := List.mem_range.mp hkmem
      obtain ⟨e, he, _⟩ := H1 k hk
      rw [List.getD_eq_getElem _ _ hk]
      rw [List.get_eq_getElem] at he
      rw [he]
      rfl
    have hents := optStage_ok _ hopts
    have hpipe : filterMem f none (some bounds) none
        = Except.ok ((((List.range f.entries.length).map
            (fun k => f.entries.getD k none)).map
              (fun o => o.getD default)).filter
            fun e => areaPass e.area bounds) := by
      rw [filterMem, hall]
      show Except.bind (Except.bind (Except.ok _) _) _ = _
      rw [Except.bind, hfetch]
      show Except.bind (Except.ok _) _ = _
      rw [Except.bind, hents]
      show Except.bind (Except.ok _) _ = _
      rw [Except.bind]
    refine ⟨_, hpipe, ?_⟩
    intro e
    rw [List.map_map, List.mem_filter]
    have hbase : (e ∈ (List.range f.entries.length).map
        ((fun o => o.getD default) ∘ fun k => f.entries.getD k none))
        ↔ ∃ h : e.key < f.entries.length,
          f.entries.get ⟨e.key, h⟩ = some e := by
      have := mem_ents_none f H1 e
      simpa [Function.comp] using this
    rw [hbase]
    have hpass : (areaPass e.area bounds = true)
        ↔ (bounds.1.getD 0 < e.area ∧
            ∀ m, bounds.2 = some m → e.area < m) := by
      cases hb : bounds.2 with
      | none => simp [areaPass, hb]
      | some m => simp [areaPass, hb]
    rw [hpass]
  · decide

/-- C7: for a loaded file (keys equal slot indices, group names resolvable,
group keys in range), `find(iids, groups, domains)` returns exactly the
entries whose stored iid bytes are in the given `iids` set, restricted to
the union of the given groups' key sets when `groups` is supplied, and
post-filtered to the entries whose decoded domain bytes are in the given
`domains` set when `domains` is supplied. -/
theorem iidfile_c7_find_characterization (f : FileMem)
    (iids : List (List Nat)) (groups : Option (List String))
    (domains : Option (List (List Nat)))
    (H1 : ∀ k, ∀ h : k < f.entries.length,
      ∃ e, f.entries.get ⟨k, h⟩ = some e ∧ e.key = k)
    (H2 : ∀ gs, groups = some gs → ∀ n ∈ gs,
      ∃ ks, f.groups.lookup n = some ks ∧ ∀ k ∈ ks, k < f.entries.length) :
    ∃ res, findMem f iids groups domains = .ok res ∧
      ∀ e, e ∈ res ↔
        ((∃ h : e.key < f.entries.length,
            f.entries.get ⟨e.key, h⟩ = some e) ∧
         (∀ gs, groups = some gs → keyInGroups f gs e.key) ∧
         (∀ ds, domains = some ds → domMatch e.domain ds = true) ∧
         e.iid ∈ iids) := by
  cases groups with
  | none =>
    have hall := allKeys_spec f H1
    have hfetch := fetchPlain_spec f (List.range f.entries.length)
      (fun k hk => List.mem_range.mp hk)
    rw [(List.nodup_range f.entries.length).dedup] at hfetch
    have hopts : ∀ o ∈ (List.range f.entries.length).map
        (fun k => f.entries.getD k none), o.isSome = true := by
      intro o ho
      obtain ⟨k, hkmem, rfl⟩ := List.mem_map.mp ho
      have hk := List.mem_range.mp hkmem
      obtain ⟨e, he, _⟩ := H1 k hk
      rw [List.getD_eq_getElem _ _ hk]
      rw [List.get_eq_getElem] at he
      rw [he]
      rfl
    have hents := optStage_ok _ hopts
    have hpipe : findMem f iids none domains
        = Except.ok (((match domains with
            | some ds => ((List.range f.entries.length).map
                (fun k => f.entries.getD k none)).map
                  (fun o => o.getD default) |>.filter
                    fun e => domMatch e.domain ds
            | none => ((List.range f.entries.length).map
                (fun k => f.entries.getD k none)).map
                  (fun o => o.getD default) : List FEntry)).filter fun e =>
              decide (e.iid ∈ iids)) := by
      rw [findMem, hall]
      show Except.bind (Except.bind (Except.ok _) _) _ = _
      rw [Except.bind, hfetch]
      show Except.bind (Except.ok _) _ = _
      rw [Except.bind, hents]
      show Except.bind (Except.ok _) _ = _
      rw [Except.bind]
    refine ⟨_, hpipe, ?_⟩
    intro e
    have hbase : (e ∈ ((List.range f.entries.length).map
        (fun k => f.entries.getD k none)).map (fun o => o.getD default))
        ↔ ∃ h : e.key < f.entries.length,
          f.entries.get ⟨e.key, h⟩ = some e := by
      rw [List.map_map]
      have := mem_ents_none f H1 e
      simpa [Function.comp] using this
    cases domains with
    | none =>
      rw [List.mem_filter]
      constructor
      · rintro ⟨hin, hiid⟩
        refine ⟨hbase.mp hin, ?_, ?_, by simpa using hiid⟩
        · rintro gs ⟨⟩
        · rintro ds ⟨⟩
      · rintro ⟨hk, _, _, hiid⟩
        exact ⟨hbase.mpr hk, by simpa using hiid⟩
    | some ds =>
      rw [List.mem_filter, List.mem_filter]
      constructor
      · rintro ⟨⟨hin, hdom⟩, hiid⟩
        refine ⟨hbase.mp hin, ?_, ?_, by simpa using hiid⟩
        · rintro gs ⟨⟩
        · rintro ds2 hds
          cases hds
          exact hdom
      · rintro ⟨hk, _, hdomf, hiid⟩
        exact ⟨⟨hbase.mpr hk, hdomf ds rfl⟩, by simpa using hiid⟩
  | some gs =>
    have hU2 := H2 gs rfl
    have hgk := groupKeys_spec f gs
      (fun n hn => ⟨(hU2 n hn).choose, (hU2 n hn).choose_spec.1⟩)
    have hUlt : ∀ k ∈ (gs.map fun n =>
        (f.groups.lookup n).getD []).flatten.dedup,
        k < f.entries.length := by
      intro k hk
      obtain ⟨n, hn, ks, hlook, hkks⟩ := (mem_groupKeysList f gs k).mp hk
      obtain ⟨ks2, hlook2, hbound⟩ := hU2 n hn
      rw [hlook] at hlook2
      injection hlook2 with hkseq
      exact hbound k (hkseq ▸ hkks)
    have hfetch := fetchPlain_spec f _ hUlt
    rw [(List.nodup_dedup _).dedup] at hfetch
    have hopts : ∀ o ∈ ((gs.map fun n =>
        (f.groups.lookup n).getD []).flatten.dedup).map
        (fun k => f.entries.getD k none), o.isSome = true := by
      intro o ho
      obtain ⟨k, hkmem, rfl⟩ := List.mem_map.mp ho
      have hk := hUlt k hkmem
      obtain ⟨e, he, _⟩ := H1 k hk
      rw [List.getD_eq_getElem _ _ hk]
      rw [List.get_eq_getElem] at he
      rw [he]
      rfl
    have hents := optStage_ok _ hopts
    have hpipe : findMem f iids (some gs) domains
        = Except.ok (((match domains with
            | some ds => (((gs.map fun n =>
                (f.groups.lookup n).getD []).flatten.dedup).map
                (fun k => f.entries.getD k none)).map
                  (fun o => o.getD default) |>.filter
                    fun e => domMatch e.domain ds
            | none => (((gs.map fun n =>
                (f.groups.lookup n).getD []).flatten.dedup).map
                (fun k => f.entries.getD k none)).map
                  (fun o => o.getD default) : List FEntry)).filter fun e =>
              decide (e.iid ∈ iids)) := by
      rw [findMem, hgk]
      show Except.bind (Except.bind (Except.ok _) _) _ = _
      rw [Except.bind, hfetch]
      show Except.bind (Except.ok _) _ = _
      rw [Except.bind, hents]
      show Except.bind (Except.ok _) _ = _
      rw [Except.bind]
    refine ⟨_, hpipe, ?_⟩
    intro e
    have hbase : (e ∈ (((gs.map fun n =>
        (f.groups.lookup n).getD []).flatten.dedup).map
        (fun k => f.entries.getD k none)).map (fun o => o.getD default))
        ↔ (∃ h : e.key < f.entries.length,
            f.entries.get ⟨e.key, h⟩ = some e) ∧ keyInGroups f gs e.key := by
      rw [List.map_map]
      have hk := mem_ents_keys f _ H1 hUlt e
      rw [mem_groupKeysList f gs e.key] at hk
      simpa [Function.comp] using hk
    cases domains with
    | none =>
      rw [List.mem_filter]
      constructor
      · rintro ⟨hin, hiid⟩
        obtain ⟨hk, hkg⟩ := hbase.mp hin
        refine ⟨hk, ?_, ?_, by simpa using hiid⟩
        · rintro gs2 hgs2
          cases hgs2
          exact hkg
        · rintro ds ⟨⟩
      · rintro ⟨hk, hkg, _, hiid⟩
        exact ⟨hbase.mpr ⟨hk, hkg gs rfl⟩, by simpa using hiid⟩
    | some ds =>
      rw [List.mem_filter, List.mem_filter]
      constructor
      · rintro ⟨⟨hin, hdom⟩, hiid⟩
        obtain ⟨hk, hkg⟩ := hbase.mp hin
        refine ⟨hk, ?_, ?_, by simpa using hiid⟩
        · rintro gs2 hgs2
          cases hgs2
          exact hkg
        · rintro ds2 hds
          cases hds
          exact hdom
      · rintro ⟨hk, hkg, hdomf, hiid⟩
        exact ⟨⟨hbase.mpr ⟨hk, hkg gs rfl⟩, hdomf ds rfl⟩,
          by simpa using hiid⟩

/-- Witness for C7: in the three-entry file with group `"A"` on keys
`{0, 2}`, the characterization instantiates for a search restricted to
group `"A"` and domain `[100]`. -/
theorem iidfile_c7_witness :
    ∃ res, findMem c7File [[121], [122]] (some ["A"]) (some [[100]])
        = .ok res ∧
      ∀ e, e ∈ res ↔
        ((∃ h : e.key < c7File.entries.length,
            c7File.entries.get ⟨e.key, h⟩ = some e) ∧
         (∀ gs, (some ["A"] : Option (List String)) = some gs →
            keyInGroups c7File gs e.key) ∧
         (∀ ds, (some [[100]] : Option (List (List Nat))) = some ds →
            domMatch e.domain ds = true) ∧
         e.iid ∈ [[121], [122]]) :=
  iidfile_c7_find_characterization c7File [[121], [122]] (some ["A"])
    (some [[100]]) (by decide)
    (by intro gs hgs n hn
        cases hgs
        simp only [List.mem_cons, List.not_mem_nil, or_false] at hn
        subst hn
        exact ⟨[0, 2], by decide, by decide⟩)

/-- Witness for C8: in the file with areas 10, 50, 500, the bounds
`(20, 200)` characterization instantiates. -/
theorem iidfile_c8_witness :
    ∃ res, filterMem c8AreasFile none (some (some 20, some 200)) none
        = .ok res ∧
      ∀ e, e ∈ res ↔
        ((∃ h : e.key < c8AreasFile.entries.length,
            c8AreasFile.entries.get ⟨e.key, h⟩ = some e) ∧
         (some 20 : Option Nat).getD 0 < e.area ∧
         ∀ m, (some 200 : Option Nat) = some m → e.area < m) :=
  iidfile_c8_amended_filter.1 c8AreasFile (some 20, some 200) (by decide)

end IIDFile
